import Mathlib

/-!
NovaCheck Web: the checklist store and the report compiler.

A shallow embedding of `src/app.js` (and of the store functions it shares with
`src/script.js`): `loadSections`, `saveSections`, `getLogo` and `generatePDF`.

Modelling conventions.

* JavaScript numbers are modelled as exact rationals (`ℚ`); the program only adds
  constants, multiplies and divides image dimensions and compares with `260`.
* JavaScript strings are modelled as Lean strings (sequences of Unicode scalar values).
* The browser is explicit data: `Storage` for `localStorage`, `Document` for the elements
  that `document.querySelector` / `document.getElementById` find, and `loadImage` for the
  image decoder (the intrinsic size of the image a data URL encodes, as read after `onload`).
  Attached files are images that load; a file whose `onload` never fires is outside the model.
* The jsPDF document is modelled by the list of calls made on it (`DocCall`), in order;
  `blocks` replays such a list into positioned text and image blocks.
* `JSON.stringify` and `JSON.parse` are modelled on the JSON grammar (ECMA-404) and on
  `QuoteJSONString`; `console.warn` is not modelled.
-/

namespace NovaCheck

/-! ## Data model -/

/-- A section of the checklist, `{ name, tasks }`. -/
structure Section where
  name : String
  tasks : List String
deriving DecidableEq

/-- An exception value thrown by the host. -/
inductive JsError
  | securityError
  | quotaExceededError
  | syntaxError
deriving DecidableEq

/-- The browser's `localStorage`: the stored items, and whether reads / writes throw
(storage disabled, quota exceeded). -/
structure Storage where
  items : List (String × String)
  getItemThrows : Bool
  setItemThrows : Bool
deriving DecidableEq

/-- The call `localStorage.getItem(key)`: the stored string, `none` for `null`. -/
def Storage.getItem (st : Storage) (key : String) : Except JsError (Option String) :=
  if st.getItemThrows then .error .securityError
  else .ok (st.items.lookup key)

/-- The call `localStorage.setItem(key, value)`: the storage afterwards. -/
def Storage.setItem (st : Storage) (key value : String) : Except JsError Storage :=
  if st.setItemThrows then .error .quotaExceededError
  else .ok { st with items := (key, value) :: st.items.filter (fun kv => kv.1 != key) }

/-- A checkbox element: its `checked` property. -/
structure Checkbox where
  checked : Bool
deriving DecidableEq

/-- A comment field (`input.comment`): its `value` property. -/
structure CommentInput where
  value : String
deriving DecidableEq

/-- A photo field (`input.photo`): its `files` property (`none` for `null`); each file is
given by the data URL that `readFileAsDataURL` resolves with. -/
structure PhotoInput where
  files : Option (List String)
deriving DecidableEq

/-- The elements of the page that `generatePDF` looks up, by section and task index;
`signaturePad` is the value of `toDataURL()` of the canvas `#signaturePad` when it exists. -/
structure Document where
  checkbox : Nat → Nat → Option Checkbox
  commentInput : Nat → Nat → Option CommentInput
  photoInput : Nat → Nat → Option PhotoInput
  signaturePad : Option String

/-- A decoded image: its intrinsic `width` and `height`, as read once `onload` has fired;
the width of a loaded image is positive. -/
structure Image where
  width : Nat
  height : Nat
  width_pos : 0 < width
deriving DecidableEq

/-- The host of one run of the script. -/
structure Browser where
  localStorage : Storage
  document : Document
  loadImage : String → Image

/-- A call made on the jsPDF document. -/
inductive DocCall
  | setFontSize (size : Nat)
  | text (s : String) (x y : ℚ)
  | addImage (data format : String) (x y w h : ℚ)
  | addPage
  | save (filename : String)
deriving DecidableEq

/-! ## JSON -/

/-- A JSON value, as `JSON.parse` builds it and `JSON.stringify` prints it. A number is kept
as its literal (the program does no arithmetic on parsed numbers); an object is kept as its
members in the order of the text. -/
inductive JVal
  | null
  | bool (b : Bool)
  | num (literal : List Char)
  | str (s : String)
  | arr (elements : List JVal)
  | obj (members : List (String × JVal))

/-- The lower-case hexadecimal digit of `n < 16`. -/
def hexDigit (n : Nat) : Char :=
  if n < 10 then Char.ofNat (48 + n) else Char.ofNat (87 + n)

/-- The value of a hexadecimal digit, in either case. -/
def hexValue? (c : Char) : Option Nat :=
  let n := c.toNat
  if 48 ≤ n ∧ n ≤ 57 then some (n - 48)
  else if 97 ≤ n ∧ n ≤ 102 then some (n - 87)
  else if 65 ≤ n ∧ n ≤ 70 then some (n - 55)
  else none

/-- The escape of one character in `QuoteJSONString`. -/
def quoteChar (c : Char) : List Char :=
  if c = '"' then ['\\', '"']
  else if c = '\\' then ['\\', '\\']
  else if c.toNat = 8 then ['\\', 'b']
  else if c.toNat = 12 then ['\\', 'f']
  else if c.toNat = 10 then ['\\', 'n']
  else if c.toNat = 13 then ['\\', 'r']
  else if c.toNat = 9 then ['\\', 't']
  else if c.toNat < 32 then ['\\', 'u', '0', '0', hexDigit (c.toNat / 16), hexDigit (c.toNat % 16)]
  else [c]

/-- The characters of a string, escaped. -/
def quoteChars : List Char → List Char
  | [] => []
  | c :: cs => quoteChar c ++ quoteChars cs

/-- The operation `QuoteJSONString`: the string between double quotes, escaped. -/
def quote (s : String) : List Char := '"' :: quoteChars s.data ++ ['"']

mutual
/-- The text of a value, as `JSON.stringify` prints it (no indentation). -/
def render : JVal → List Char
  | .null => ['n', 'u', 'l', 'l']
  | .bool true => ['t', 'r', 'u', 'e']
  | .bool false => ['f', 'a', 'l', 's', 'e']
  | .num literal => literal
  | .str s => quote s
  | .arr elements => '[' :: renderElements elements ++ [']']
  | .obj members => '{' :: renderMembers members ++ ['}']
/-- The elements of an array, separated by commas. -/
def renderElements : List JVal → List Char
  | [] => []
  | v :: vs =>
    match vs with
    | [] => render v
    | _ :: _ => render v ++ ',' :: renderElements vs
/-- The members of an object, separated by commas. -/
def renderMembers : List (String × JVal) → List Char
  | [] => []
  | (k, v) :: ms =>
    match ms with
    | [] => quote k ++ ':' :: render v
    | _ :: _ => quote k ++ ':' :: render v ++ ',' :: renderMembers ms
end

/-- The call `JSON.stringify(value)`. -/
def JSON.stringify (v : JVal) : String := String.mk (render v)

/-- JSON white space. -/
def isJsonSpace (c : Char) : Bool := c = ' ' || c = '\t' || c = '\n' || c = '\r'

/-- The text without its leading white space. -/
def skipSpace (cs : List Char) : List Char := cs.dropWhile isJsonSpace

/-- Four hexadecimal digits, as a number. -/
def hex4? (a b c d : Char) : Option Nat :=
  match hexValue? a, hexValue? b, hexValue? c, hexValue? d with
  | some a, some b, some c, some d => some (((a * 16 + b) * 16 + c) * 16 + d)
  | _, _, _, _ => none

/-- The character that a one-letter escape stands for. -/
def unescape? (e : Char) : Option Char :=
  if e = '"' then some '"'
  else if e = '\\' then some '\\'
  else if e = '/' then some '/'
  else if e = 'b' then some (Char.ofNat 8)
  else if e = 'f' then some (Char.ofNat 12)
  else if e = 'n' then some '\n'
  else if e = 'r' then some '\r'
  else if e = 't' then some '\t'
  else none

/-- Puts a character in front of a parsed string. -/
def consChar (c : Char) (r : Option (List Char × List Char)) : Option (List Char × List Char) :=
  r.map fun p => (c :: p.1, p.2)

/-- The second half of a surrogate pair, after the escape of the high surrogate `hi`: the
escape of a low surrogate, giving the character of the pair, and the text that follows. -/
def parseLowSurrogate (hi : Nat) : List Char → Option (Char × List Char)
  | b :: u :: l1 :: l2 :: l3 :: l4 :: rest =>
    if b = '\\' ∧ u = 'u' then
      match hex4? l1 l2 l3 l4 with
      | none => none
      | some lo =>
        if 0xDC00 ≤ lo ∧ lo ≤ 0xDFFF then
          some (Char.ofNat (0x10000 + (hi - 0xD800) * 0x400 + (lo - 0xDC00)), rest)
        else none
    else none
  | _ => none

/-- The text after `\u`: four hexadecimal digits, and the text that follows. The escape
of a surrogate pair gives one character; the escape of a lone surrogate, which JavaScript
accepts, has no counterpart in the strings of the model and is rejected. -/
def parseUnicodeEscape : List Char → Option (Char × List Char)
  | h1 :: h2 :: h3 :: h4 :: rest =>
    match hex4? h1 h2 h3 h4 with
    | none => none
    | some hi =>
      if 0xD800 ≤ hi ∧ hi ≤ 0xDBFF then parseLowSurrogate hi rest
      else if 0xDC00 ≤ hi ∧ hi ≤ 0xDFFF then none
      else some (Char.ofNat hi, rest)
  | _ => none

/-- The text after a backslash in a string literal: the escaped character, and the text
that follows. -/
def parseEscape : List Char → Option (Char × List Char)
  | [] => none
  | e :: rest =>
    if e = 'u' then parseUnicodeEscape rest
    else (unescape? e).map fun ch => (ch, rest)

/-- The characters of a string literal after its opening quote, up to the closing quote,
and the text that follows; `fuel` bounds the number of characters. -/
def parseChars : Nat → List Char → Option (List Char × List Char)
  | 0, _ => none
  | _ + 1, [] => none
  | fuel + 1, c :: cs =>
    if c = '"' then some ([], cs)
    else if c = '\\' then
      match parseEscape cs with
      | none => none
      | some (ch, rest) => consChar ch (parseChars fuel rest)
    else if c.toNat < 32 then none
    else consChar c (parseChars fuel cs)

/-- A string literal after its opening quote: the string, and the text that follows. The
length of the text bounds the number of characters. -/
def parseString (cs : List Char) : Option (String × List Char) :=
  (parseChars cs.length cs).map fun p => (String.mk p.1, p.2)

/-- The longest run of decimal digits that starts the text, and the text that follows. -/
def takeDigits : List Char → List Char × List Char
  | [] => ([], [])
  | c :: cs =>
    if c.isDigit then ((c :: (takeDigits cs).1), (takeDigits cs).2) else ([], c :: cs)

/-- The integer part of a number: `0`, or a non-zero digit and digits. -/
def parseInt (cs : List Char) : Option (List Char × List Char) :=
  match cs with
  | [] => none
  | c :: r =>
    if c = '0' then some (['0'], r)
    else if c.isDigit then some (c :: (takeDigits r).1, (takeDigits r).2)
    else none

/-- The optional fraction of a number: a point and at least one digit. -/
def parseFrac (cs : List Char) : Option (List Char × List Char) :=
  match cs with
  | c :: r =>
    if c = '.' then
      if (takeDigits r).1 = [] then none else some ('.' :: (takeDigits r).1, (takeDigits r).2)
    else some ([], cs)
  | [] => some ([], [])

/-- The optional exponent of a number: `e` or `E`, an optional sign and at least one
digit. -/
def parseExp (cs : List Char) : Option (List Char × List Char) :=
  match cs with
  | e :: r =>
    if e = 'e' ∨ e = 'E' then
      match r with
      | s :: r1 =>
        if s = '+' ∨ s = '-' then
          if (takeDigits r1).1 = [] then none
          else some (e :: s :: (takeDigits r1).1, (takeDigits r1).2)
        else if (takeDigits r).1 = [] then none
        else some (e :: (takeDigits r).1, (takeDigits r).2)
      | [] => none
    else some ([], cs)
  | [] => some ([], [])

/-- A number literal and the text that follows. -/
def parseNumber (cs : List Char) : Option (List Char × List Char) :=
  let signed : List Char × List Char :=
    match cs with
    | c :: r => if c = '-' then (['-'], r) else ([], cs)
    | [] => ([], [])
  match parseInt signed.2 with
  | none => none
  | some (i, r1) =>
    match parseFrac r1 with
    | none => none
    | some (f, r2) =>
      match parseExp r2 with
      | none => none
      | some (e, r3) => some (signed.1 ++ i ++ f ++ e, r3)

/-- The elements of an array after the first `[`, when the array is not empty: values
parsed by `value`, separated by commas, up to the closing `]`. -/
def parseElements (value : List Char → Option (JVal × List Char)) :
    Nat → List Char → Option (List JVal × List Char)
  | 0, _ => none
  | fuel + 1, cs =>
    match value cs with
    | none => none
    | some (v, r) =>
      match skipSpace r with
      | c :: r1 =>
        if c = ',' then (parseElements value fuel r1).map fun p => (v :: p.1, p.2)
        else if c = ']' then some ([v], r1)
        else none
      | [] => none

/-- The members of an object after the `{`, when the object is not empty: a string, a
colon and a value parsed by `value`, separated by commas, up to the closing `}`. -/
def parseMembers (value : List Char → Option (JVal × List Char)) :
    Nat → List Char → Option (List (String × JVal) × List Char)
  | 0, _ => none
  | fuel + 1, cs =>
    match skipSpace cs with
    | q :: r =>
      if q = '"' then
        match parseString r with
        | none => none
        | some (k, r1) =>
          match skipSpace r1 with
          | c :: r2 =>
            if c = ':' then
              match value r2 with
              | none => none
              | some (v, r3) =>
                match skipSpace r3 with
                | d :: r4 =>
                  if d = ',' then
                    (parseMembers value fuel r4).map fun p => ((k, v) :: p.1, p.2)
                  else if d = '}' then some ([(k, v)], r4)
                  else none
                | [] => none
            else none
          | [] => none
      else none
    | [] => none

/-- A JSON value at the start of the text (after white space), and the text that follows;
`fuel` bounds the nesting depth and the number of elements of an array or object. -/
def parseValue : Nat → List Char → Option (JVal × List Char)
  | 0, _ => none
  | fuel + 1, cs =>
    match skipSpace cs with
    | [] => none
    | c :: r =>
      if c = '"' then (parseString r).map fun p => (JVal.str p.1, p.2)
      else if c = '[' then
        match skipSpace r with
        | d :: r1 =>
          if d = ']' then some (JVal.arr [], r1)
          else (parseElements (parseValue fuel) fuel r).map fun p => (JVal.arr p.1, p.2)
        | [] => none
      else if c = '{' then
        match skipSpace r with
        | d :: r1 =>
          if d = '}' then some (JVal.obj [], r1)
          else (parseMembers (parseValue fuel) fuel r).map fun p => (JVal.obj p.1, p.2)
        | [] => none
      else if c = 'n' then
        match r with
        | 'u' :: 'l' :: 'l' :: r1 => some (JVal.null, r1)
        | _ => none
      else if c = 't' then
        match r with
        | 'r' :: 'u' :: 'e' :: r1 => some (JVal.bool true, r1)
        | _ => none
      else if c = 'f' then
        match r with
        | 'a' :: 'l' :: 's' :: 'e' :: r1 => some (JVal.bool false, r1)
        | _ => none
      else (parseNumber (c :: r)).map fun p => (JVal.num p.1, p.2)

/-- The call `JSON.parse(text)`: the value of the whole text, or a `SyntaxError`. The
length of the text bounds its nesting depth and the number of its elements. -/
def JSON.parse (text : String) : Except JsError JVal :=
  match parseValue (text.length + 1) text.data with
  | some (v, rest) => if skipSpace rest = [] then .ok v else .error .syntaxError
  | none => .error .syntaxError

/-- A section as a JavaScript object `{ name, tasks }`. -/
def Section.toJVal (sec : Section) : JVal :=
  .obj [("name", .str sec.name), ("tasks", .arr (sec.tasks.map JVal.str))]

/-- A checklist as a JavaScript array of sections. -/
def toJVal (sections : List Section) : JVal := .arr (sections.map Section.toJVal)

/-! ## The store functions -/

/-- The function `getLogo` (app.js 78-85): `stored || null`, and `null` when the read
throws. -/
def getLogo (st : Storage) : Option String :=
  match st.getItem "novacheck_logo" with
  | .ok (some stored) => if stored ≠ "" then some stored else none
  | .ok none => none
  | .error _ => none

/-- The try block of `loadSections` (lines 49-56): the value returned from inside it, or
none when control reaches line 57 (nothing stored, an empty string stored, or an exception
of `getItem` or `JSON.parse`, caught and logged). -/
def storedSections (st : Storage) : Option JVal :=
  match st.getItem "novacheck_sections" with
  | .ok (some stored) =>
    if stored ≠ "" then
      match JSON.parse stored with
      | .ok v => some v
      | .error _ => none
    else none
  | .ok none => none
  | .error _ => none

/-- The function `loadSections` (app.js 48-60, script.js 49-61), for the `defaultSections`
of the file: the value returned and the storage afterwards, or the exception that escapes.
The write of the defaults (line 58) is outside the try block. -/
def loadSections (defaultSections : List Section) (st : Storage) :
    Except JsError (JVal × Storage) :=
  match storedSections st with
  | some v => .ok (v, st)
  | none =>
    match st.setItem "novacheck_sections" (JSON.stringify (toJVal defaultSections)) with
    | .ok st1 => .ok (toJVal defaultSections, st1)
    | .error e => .error e

/-- The function `saveSections` (app.js 66-72, script.js 67-73): the storage afterwards;
an exception of `setItem` is caught and logged. -/
def saveSections (sections : JVal) (st : Storage) : Storage :=
  match st.setItem "novacheck_sections" (JSON.stringify sections) with
  | .ok st1 => st1
  | .error _ => st

/-- The `defaultSections` of app.js (lines 10-42). -/
def App.defaultSections : List Section :=
  [ ⟨"Chaufferies",
      ["Contrôler la chaufferie 1", "Contrôler la chaufferie 2", "Contrôler la chaufferie 3"]⟩,
    ⟨"Contrôle général",
      ["Inspection des parties communes", "Vérifier l'éclairage de sécurité",
        "Contrôler des alarmes incendie"]⟩,
    ⟨"Piscines et spa",
      ["Contrôler la piscine extérieure", "Relever la température de la piscine extérieure",
        "Prélèvement d'un échantillon d'eau de la piscine du spa"]⟩,
    ⟨"Pompes de relevage",
      ["Vérifier la pompe de relevage 1", "Vérifier la pompe de relevage 2"]⟩ ]

/-- The `defaultSections` of script.js (lines 10-43). -/
def Script.defaultSections : List Section :=
  [ ⟨"Chaufferies",
      ["Contrôler la chaudière 1", "Contrôler la chaudière 2", "Contrôler la chaudière 3"]⟩,
    ⟨"Contrôle général",
      ["Inspection des parties communes", "Vérifier l'éclairage de sécurité",
        "Contrôle des alarmes incendie"]⟩,
    ⟨"Piscines et spa",
      ["Relever la température de la piscine extérieure",
        "Prélever un échantillon d'eau de la piscine extérieure",
        "Relever la température de la piscine du spa",
        "Prélever un échantillon d'eau de la piscine du spa"]⟩,
    ⟨"Pompes de relevage",
      ["Vérifier la pompe de relevage 1", "Vérifier la pompe de relevage 2"]⟩ ]

/-! ## The report compiler -/

/-- Code points removed by `String.prototype.trim`: ECMAScript WhiteSpace and
LineTerminator. -/
def isTrimChar (c : Char) : Bool :=
  let n := c.toNat
  n == 0x09 || n == 0x0A || n == 0x0B || n == 0x0C || n == 0x0D || n == 0x20 || n == 0xA0
    || n == 0x1680 || (0x2000 ≤ n && n ≤ 0x200A) || n == 0x2028 || n == 0x2029
    || n == 0x202F || n == 0x205F || n == 0x3000 || n == 0xFEFF

/-- The method `String.prototype.trim`. -/
def trim (s : String) : String :=
  String.mk ((s.data.dropWhile isTrimChar).reverse.dropWhile isTrimChar).reverse

/-- Line 312: `checkbox && checkbox.checked ? 'OK' : 'KO'`. -/
def status (b : Browser) (secIndex taskIndex : Nat) : String :=
  match b.document.checkbox secIndex taskIndex with
  | some checkbox => if checkbox.checked then "OK" else "KO"
  | none => "KO"

/-- Line 314: `commentInput ? commentInput.value.trim() : ''`. -/
def comment (b : Browser) (secIndex taskIndex : Nat) : String :=
  match b.document.commentInput secIndex taskIndex with
  | some commentInput => trim commentInput.value
  | none => ""

/-- Line 325: the file `photoInput.files[0]` when
`photoInput && photoInput.files && photoInput.files[0]` is truthy. -/
def photoFile (b : Browser) (secIndex taskIndex : Nat) : Option String :=
  match b.document.photoInput secIndex taskIndex with
  | some photoInput =>
    match photoInput.files with
    | some (file :: _) => some file
    | _ => none
  | none => none

/-- Lines 315-317: the status line of a task, drawn at cursor `y`. -/
def statusCalls (b : Browser) (secIndex taskIndex : Nat) (task : String) (y : ℚ) :
    List DocCall :=
  [.setFontSize 12, .text ("- " ++ task ++ ": " ++ status b secIndex taskIndex) 25 y]

/-- Lines 318-322: the comment line of a task, drawn at cursor `y` when the comment is
not empty; the calls and the cursor afterwards. -/
def commentCalls (b : Browser) (secIndex taskIndex : Nat) (y : ℚ) : List DocCall × ℚ :=
  if comment b secIndex taskIndex ≠ "" then
    ([.setFontSize 10, .text ("Commentaire: " ++ comment b secIndex taskIndex) 30 y], y + 6)
  else ([], y)

/-- Lines 324-336: the photo of a task, drawn at cursor `y` when a file is attached; the
calls and the cursor afterwards. -/
def photoCalls (b : Browser) (secIndex taskIndex : Nat) (y : ℚ) : List DocCall × ℚ :=
  match photoFile b secIndex taskIndex with
  | some dataUrl =>
    let img := b.loadImage dataUrl
    let maxWidth : ℚ := 60
    let imgRatio : ℚ := (img.height : ℚ) / (img.width : ℚ)
    let imgWidth := maxWidth
    let imgHeight := imgRatio * maxWidth
    ([.addImage dataUrl "PNG" 30 y imgWidth imgHeight], y + (imgHeight + 4))
  | none => ([], y)

/-- Lines 310-336: the body of the task loop for task `taskIndex` of section `secIndex`,
entered with cursor `y`; the calls made and the cursor afterwards. -/
def taskBody (b : Browser) (secIndex taskIndex : Nat) (task : String) (y : ℚ) :
    List DocCall × ℚ :=
  let c := commentCalls b secIndex taskIndex (y + 6)
  let p := photoCalls b secIndex taskIndex c.2
  (statusCalls b secIndex taskIndex task y ++ c.1 ++ p.1, p.2)

/-- Line 309: the task loop over the remaining `tasks`, the first of which has index
`taskIndex`. -/
def taskLoop (b : Browser) (secIndex : Nat) : Nat → List String → ℚ → List DocCall × ℚ
  | _, [], y => ([], y)
  | taskIndex, task :: tasks, y =>
    let t := taskBody b secIndex taskIndex task y
    let r := taskLoop b secIndex (taskIndex + 1) tasks t.2
    (t.1 ++ r.1, r.2)

/-- Lines 305-337: the heading of a section and its tasks, entered with cursor `y`. -/
def sectionCalls (b : Browser) (secIndex : Nat) (sec : Section) (y : ℚ) : List DocCall × ℚ :=
  let r := taskLoop b secIndex 0 sec.tasks (y + 8)
  ([.setFontSize 14, .text sec.name 20 y] ++ r.1, r.2)

/-- Lines 338-342: the gap after a section and the page-break check, entered with the
cursor `y` reached by the section's last block. -/
def pageBreak (y : ℚ) : List DocCall × ℚ :=
  if y + 4 > 260 then ([.addPage], 20) else ([], y + 4)

/-- Lines 305-342: the body of the section loop for section `secIndex`. -/
def sectionBody (b : Browser) (secIndex : Nat) (sec : Section) (y : ℚ) : List DocCall × ℚ :=
  let s := sectionCalls b secIndex sec y
  let p := pageBreak s.2
  (s.1 ++ p.1, p.2)

/-- Line 304: the section loop over the remaining `sections`, the first of which has index
`secIndex`. -/
def sectionLoop (b : Browser) : Nat → List Section → ℚ → List DocCall × ℚ
  | _, [], y => ([], y)
  | secIndex, sec :: sections, y =>
    let s := sectionBody b secIndex sec y
    let r := sectionLoop b (secIndex + 1) sections s.2
    (s.1 ++ r.1, r.2)

/-- Lines 286-297: the logo, drawn at cursor `y` when one is stored. -/
def logoCalls (b : Browser) (y : ℚ) : List DocCall × ℚ :=
  match getLogo b.localStorage with
  | some logo =>
    let img := b.loadImage logo
    let ratio : ℚ := (img.height : ℚ) / (img.width : ℚ)
    let width : ℚ := 40
    let height := width * ratio
    ([.addImage logo "PNG" 20 y width height], y + (height + 5))
  | none => ([], y)

/-- Lines 299-301: the title. -/
def titleCalls (y : ℚ) : List DocCall × ℚ :=
  ([.setFontSize 18, .text "Rapport quotidien NovaCheck" 20 y], y + 12)

/-- Lines 345-354: the signature, drawn at cursor `y` when the canvas exists. -/
def signatureCalls (b : Browser) (y : ℚ) : List DocCall × ℚ :=
  match b.document.signaturePad with
  | some signatureData =>
    ([.setFontSize 12, .text "Signature:" 20 y, .addImage signatureData "PNG" 20 (y + 4) 60 20],
      y + 4 + 30)
  | none => ([], y)

/-- The legal mention of line 358. -/
def legalText : String :=
  "NovaCheck est créé par la société NovaSoft, appartenant au groupe Berry&Co."

/-- Lines 356-360: the legal mention and the save. -/
def footerCalls : List DocCall :=
  [.setFontSize 8, .text legalText 20 285, .save "rapport_novacheck.pdf"]

/-- The function `generatePDF` (app.js 282-361): the calls made on the jsPDF document, in
order, where `sections` is the checklist that `loadSections()` returns at line 303. -/
def generatePDF (b : Browser) (sections : List Section) : List DocCall :=
  let l := logoCalls b 20
  let t := titleCalls l.2
  let s := sectionLoop b 0 sections t.2
  let g := signatureCalls b s.2
  l.1 ++ t.1 ++ s.1 ++ g.1 ++ footerCalls

/-! ## Reading a call list as blocks -/

/-- A block of the report: a text or an image, with the page it is on; a text also has the
font size in force when it was drawn. -/
inductive Block
  | text (page size : Nat) (s : String) (x y : ℚ)
  | image (page : Nat) (data : String) (x y w h : ℚ)
deriving DecidableEq

/-- The blocks that a list of calls draws, started on page `page` with font size `size`. -/
def blocksFrom : Nat → Nat → List DocCall → List Block
  | _, _, [] => []
  | page, _, .setFontSize n :: cs => blocksFrom page n cs
  | page, size, .text s x y :: cs => .text page size s x y :: blocksFrom page size cs
  | page, size, .addImage data _ x y w h :: cs =>
    .image page data x y w h :: blocksFrom page size cs
  | page, size, .addPage :: cs => blocksFrom (page + 1) size cs
  | page, size, .save _ :: cs => blocksFrom page size cs

/-- The blocks of a document: jsPDF starts on page 1 with font size 16. -/
def blocks (cs : List DocCall) : List Block := blocksFrom 1 16 cs

/-- The page that is current after the calls `cs`, started on page `page`. -/
def pageAfter : Nat → List DocCall → Nat
  | page, [] => page
  | page, .addPage :: cs => pageAfter (page + 1) cs
  | page, _ :: cs => pageAfter page cs

/-- The font size in force after the calls `cs`, started with font size `size`. -/
def sizeAfter : Nat → List DocCall → Nat
  | size, [] => size
  | _, .setFontSize n :: cs => sizeAfter n cs
  | size, _ :: cs => sizeAfter size cs

/-- The number of pages of a document. -/
def pageCount (cs : List DocCall) : Nat := pageAfter 1 cs

/-- The content of a section that a block carries: a section heading (font size 14), a
status line (font size 12, indented to 25), a comment line (font size 10) or a photo (an
image indented to 30, with its width and height). -/
inductive Item
  | heading (s : String)
  | statusLine (s : String)
  | commentLine (s : String)
  | photo (data : String) (w h : ℚ)
deriving DecidableEq

/-- The section content of a block; none for the logo, the title, the signature and the
legal mention. -/
def Block.item? : Block → Option Item
  | .text _ size s x _ =>
    if size = 14 then some (.heading s)
    else if size = 12 ∧ x = 25 then some (.statusLine s)
    else if size = 10 then some (.commentLine s)
    else none
  | .image _ data x _ w h => if x = 30 then some (.photo data w h) else none

/-- The section content that a list of calls draws, started on page `page` with font size
`size`. -/
def itemsFrom (page size : Nat) (cs : List DocCall) : List Item :=
  (blocksFrom page size cs).filterMap Block.item?

/-- The section content of a document, in the order drawn. -/
def items (cs : List DocCall) : List Item := itemsFrom 1 16 cs

/-- The text of a section heading. -/
def Item.heading? : Item → Option String
  | .heading s => some s
  | _ => none

/-- The text of a status line. -/
def Item.statusLine? : Item → Option String
  | .statusLine s => some s
  | _ => none

/-- The text of a comment line. -/
def Item.commentLine? : Item → Option String
  | .commentLine s => some s
  | _ => none

/-- The section headings of a document, in the order drawn. -/
def headings (cs : List DocCall) : List String := (items cs).filterMap Item.heading?

/-- The status lines of a document, in the order drawn. -/
def statusLines (cs : List DocCall) : List String := (items cs).filterMap Item.statusLine?

/-- The comment lines of a document, in the order drawn. -/
def commentLines (cs : List DocCall) : List String := (items cs).filterMap Item.commentLine?

/-- Whether a call is `doc.save`. -/
def DocCall.isSave : DocCall → Bool
  | .save _ => true
  | _ => false

/-- The `doc.save` calls of a document. -/
def saves (cs : List DocCall) : List DocCall := cs.filter DocCall.isSave

/-- Whether a block is a text drawn at font size 8, the size of the legal mention. -/
def Block.isLegal : Block → Bool
  | .text _ size _ _ _ => size == 8
  | .image _ _ _ _ _ _ => false

/-- The texts that a list of calls draws at font size 8. -/
def legalBlocksFrom (page size : Nat) (cs : List DocCall) : List Block :=
  (blocksFrom page size cs).filter Block.isLegal

/-- The texts of a document drawn at font size 8. -/
def legalBlocks (cs : List DocCall) : List Block := legalBlocksFrom 1 16 cs

/-- The calls made before the section loop (logo and title), and the cursor on entering
the loop. -/
def headerCalls (b : Browser) : List DocCall × ℚ :=
  let l := logoCalls b 20
  let t := titleCalls l.2
  (l.1 ++ t.1, t.2)

/-- The vertical position of a block. -/
def Block.y : Block → ℚ
  | .text _ _ _ _ y => y
  | .image _ _ _ y _ _ => y

/-- The page of a block. -/
def Block.page : Block → Nat
  | .text page _ _ _ _ => page
  | .image page _ _ _ _ _ => page

/-! ## Concrete pages -/

/-- A working, empty `localStorage`. -/
def emptyStorage : Storage := ⟨[], false, false⟩

/-- The page of the scenario of the specification: task `(0, 0)` is checked and commented
`fine`, task `(0, 1)` is unchecked with an empty comment and no file; the signature canvas
exists. -/
def scenarioDocument : Document where
  checkbox := fun i j =>
    if i = 0 ∧ j = 0 then some ⟨true⟩ else if i = 0 ∧ j = 1 then some ⟨false⟩ else none
  commentInput := fun i j =>
    if i = 0 ∧ j = 0 then some ⟨"fine"⟩ else if i = 0 ∧ j = 1 then some ⟨""⟩ else none
  photoInput := fun i _ => if i = 0 then some ⟨some []⟩ else none
  signaturePad := some "data:image/png;base64,sig"

/-- The browser of the scenario: no logo stored. -/
def scenarioBrowser : Browser :=
  ⟨emptyStorage, scenarioDocument, fun _ => ⟨4, 3, by decide⟩⟩

/-- A page whose task `(0, 0)` has a photo attached, with or without a signature canvas. -/
def photoDocument (signaturePad : Option String) : Document where
  checkbox := fun _ _ => some ⟨false⟩
  commentInput := fun _ _ => some ⟨""⟩
  photoInput := fun i j =>
    if i = 0 ∧ j = 0 then some ⟨some ["data:image/png;base64,photo"]⟩ else some ⟨some []⟩
  signaturePad := signaturePad

/-- A browser in which every image is 1 wide and 4 high, so that a photo is drawn 60 wide
and 240 high; no logo stored. -/
def tallPhotoBrowser (signaturePad : Option String) : Browser :=
  ⟨emptyStorage, photoDocument signaturePad, fun _ => ⟨1, 4, by decide⟩⟩

/-! ## The report as the specification describes it -/

/-- The status line the specification gives a task: `OK` exactly when the task's checkbox
exists and is checked. -/
def specStatusLine (b : Browser) (i j : Nat) (task : String) : String :=
  "- " ++ task ++ ": " ++ (if b.document.checkbox i j = some ⟨true⟩ then "OK" else "KO")

/-- The trimmed comment text the specification gives a task: empty when the comment field
is absent. -/
def specComment (b : Browser) (i j : Nat) : String :=
  ((b.document.commentInput i j).map fun c => trim c.value).getD ""

/-- The comment lines the specification gives a task: none when the trimmed comment is
empty, one otherwise. -/
def specCommentLines (b : Browser) (i j : Nat) : List String :=
  if specComment b i j = "" then [] else ["Commentaire: " ++ specComment b i j]

/-- The photos the specification gives a task: none without an attached file, otherwise
the first file at width 60 and height `60 × (h / w)`. -/
def specPhotos (b : Browser) (i j : Nat) : List (String × ℚ × ℚ) :=
  match photoFile b i j with
  | some f => [(f, 60, 60 * (((b.loadImage f).height : ℚ) / ((b.loadImage f).width : ℚ)))]
  | none => []

/-- The section content the specification gives a task: status line, then comment line,
then photo. -/
def specTaskItems (b : Browser) (i j : Nat) (task : String) : List Item :=
  [Item.statusLine (specStatusLine b i j task)]
    ++ (specCommentLines b i j).map Item.commentLine
    ++ (specPhotos b i j).map fun p => Item.photo p.1 p.2.1 p.2.2

/-- The section content the specification gives a section: its heading, then its tasks in
order. -/
def specSectionItems (b : Browser) (i : Nat) (sec : Section) : List Item :=
  Item.heading sec.name :: sec.tasks.enum.flatMap fun jt => specTaskItems b i jt.1 jt.2

/-- The section content the specification gives a checklist: its sections in order. -/
def specItems (b : Browser) (sections : List Section) : List Item :=
  sections.enum.flatMap fun is => specSectionItems b is.1 is.2

/-! ## Cursor positions and page breaks -/

/-- The vertical position of a section heading: a text drawn at font size 14. -/
def Block.headingY? : Block → Option ℚ
  | .text _ size _ _ y => if size = 14 then some y else none
  | .image _ _ _ _ _ _ => none

/-- The cursor values at which the section headings of a document are drawn, in order. -/
def headingYs (cs : List DocCall) : List ℚ := (blocks cs).filterMap Block.headingY?

/-- The vertical position of the `Signature:` label: a text drawn at font size 12 with its
left edge at 20 (the status lines, also at font size 12, are indented to 25). -/
def Block.signatureY? : Block → Option ℚ
  | .text _ size _ x y => if size = 12 ∧ x = 20 then some y else none
  | .image _ _ _ _ _ _ => none

/-- The cursor values at which the `Signature:` label of a document is drawn. -/
def signatureYs (cs : List DocCall) : List ℚ := (blocks cs).filterMap Block.signatureY?

/-- The number of page breaks (`doc.addPage` calls) in a list of calls. -/
def pageBreakCount (cs : List DocCall) : Nat := cs.count DocCall.addPage

/-- The cursor on entering section `before.length`, after the header and the sections
`before`. -/
def cursorBefore (b : Browser) (before : List Section) : ℚ :=
  (sectionLoop b 0 before (headerCalls b).2).2

/-- The calls made before the heading of section `before.length`: the header and the
sections `before`, with their gaps and page breaks. -/
def callsBefore (b : Browser) (before : List Section) : List DocCall :=
  (headerCalls b).1 ++ (sectionLoop b 0 before (headerCalls b).2).1

/-- A checklist of one section with two tasks; on the page `photoDocument` the first task
has a photo attached. -/
def twoTaskSections : List Section := [⟨"S", ["T", "U"]⟩]

/-! ## Replaying call lists -/

theorem blocksFrom_append (a c : List DocCall) (page size : Nat) :
    blocksFrom page size (a ++ c)
      = blocksFrom page size a ++ blocksFrom (pageAfter page a) (sizeAfter size a) c := by
  induction a generalizing page size with
  | nil => simp [blocksFrom, pageAfter, sizeAfter]
  | cons d a ih => cases d <;> simp [blocksFrom, pageAfter, sizeAfter, ih]

theorem itemsFrom_append (a c : List DocCall) (page size : Nat) :
    itemsFrom page size (a ++ c)
      = itemsFrom page size a ++ itemsFrom (pageAfter page a) (sizeAfter size a) c := by
  simp [itemsFrom, blocksFrom_append]

theorem pageAfter_append (a c : List DocCall) (page : Nat) :
    pageAfter page (a ++ c) = pageAfter (pageAfter page a) c := by
  induction a generalizing page with
  | nil => simp [pageAfter]
  | cons d a ih => cases d <;> simp [pageAfter, ih]

theorem sizeAfter_append (a c : List DocCall) (size : Nat) :
    sizeAfter size (a ++ c) = sizeAfter (sizeAfter size a) c := by
  induction a generalizing size with
  | nil => simp [sizeAfter]
  | cons d a ih => cases d <;> simp [sizeAfter, ih]

/-! ## The section content of the report -/

theorem status_eq (b : Browser) (i j : Nat) :
    status b i j = if b.document.checkbox i j = some ⟨true⟩ then "OK" else "KO" := by
  unfold status
  cases h : b.document.checkbox i j with
  | none => simp
  | some c => cases c with
    | mk v => cases v <;> simp

theorem comment_eq (b : Browser) (i j : Nat) : comment b i j = specComment b i j := by
  unfold comment specComment
  cases b.document.commentInput i j <;> rfl

theorem itemsFrom_statusCalls (b : Browser) (i j : Nat) (task : String) (y : ℚ)
    (page size : Nat) :
    itemsFrom page size (statusCalls b i j task y)
      = [Item.statusLine (specStatusLine b i j task)] := by
  simp [itemsFrom, statusCalls, blocksFrom, Block.item?, specStatusLine, status_eq]

theorem itemsFrom_commentCalls (b : Browser) (i j : Nat) (y : ℚ) (page size : Nat) :
    itemsFrom page size (commentCalls b i j y).1
      = (specCommentLines b i j).map Item.commentLine := by
  unfold commentCalls specCommentLines
  rw [comment_eq]
  by_cases h : specComment b i j = "" <;>
    simp [h, itemsFrom, blocksFrom, Block.item?]

theorem itemsFrom_photoCalls (b : Browser) (i j : Nat) (y : ℚ) (page size : Nat) :
    itemsFrom page size (photoCalls b i j y).1
      = (specPhotos b i j).map fun p => Item.photo p.1 p.2.1 p.2.2 := by
  unfold photoCalls specPhotos
  cases photoFile b i j with
  | none => simp [itemsFrom, blocksFrom]
  | some f => simp [itemsFrom, blocksFrom, Block.item?, mul_comm]

theorem itemsFrom_taskBody (b : Browser) (i j : Nat) (task : String) (y : ℚ)
    (page size : Nat) :
    itemsFrom page size (taskBody b i j task y).1 = specTaskItems b i j task := by
  simp [taskBody, specTaskItems, itemsFrom_append, itemsFrom_statusCalls,
    itemsFrom_commentCalls, itemsFrom_photoCalls]

theorem itemsFrom_taskLoop (b : Browser) (i : Nat) (tasks : List String) (j : Nat) (y : ℚ)
    (page size : Nat) :
    itemsFrom page size (taskLoop b i j tasks y).1
      = (tasks.enumFrom j).flatMap fun jt => specTaskItems b i jt.1 jt.2 := by
  induction tasks generalizing j y page size with
  | nil => simp [taskLoop, itemsFrom, blocksFrom]
  | cons t ts ih => simp [taskLoop, itemsFrom_append, itemsFrom_taskBody, ih]

theorem itemsFrom_pageBreak (y : ℚ) (page size : Nat) :
    itemsFrom page size (pageBreak y).1 = [] := by
  unfold pageBreak
  split <;> simp [itemsFrom, blocksFrom]

theorem itemsFrom_sectionBody (b : Browser) (i : Nat) (sec : Section) (y : ℚ)
    (page size : Nat) :
    itemsFrom page size (sectionBody b i sec y).1 = specSectionItems b i sec := by
  simp only [sectionBody, sectionCalls, itemsFrom_append, itemsFrom_pageBreak,
    itemsFrom_taskLoop, List.append_nil, specSectionItems, List.enum]
  simp [itemsFrom, blocksFrom, Block.item?]

theorem itemsFrom_sectionLoop (b : Browser) (sections : List Section) (i : Nat) (y : ℚ)
    (page size : Nat) :
    itemsFrom page size (sectionLoop b i sections y).1
      = (sections.enumFrom i).flatMap fun is => specSectionItems b is.1 is.2 := by
  induction sections generalizing i y page size with
  | nil => simp [sectionLoop, itemsFrom, blocksFrom]
  | cons sec secs ih => simp [sectionLoop, itemsFrom_append, itemsFrom_sectionBody, ih]

theorem itemsFrom_logoCalls (b : Browser) (y : ℚ) (page size : Nat) :
    itemsFrom page size (logoCalls b y).1 = [] := by
  unfold logoCalls
  split <;> simp [itemsFrom, blocksFrom, Block.item?]

theorem itemsFrom_signatureCalls (b : Browser) (y : ℚ) (page size : Nat) :
    itemsFrom page size (signatureCalls b y).1 = [] := by
  unfold signatureCalls
  split <;> simp [itemsFrom, blocksFrom, Block.item?]

/-- The section content of the report is the one the specification describes: the sections
in order, each with its heading and then its tasks in order, each task with its status
line, then its comment line, then its photo. -/
theorem items_generatePDF (b : Browser) (sections : List Section) :
    items (generatePDF b sections) = specItems b sections := by
  simp only [items, generatePDF, itemsFrom_append, itemsFrom_logoCalls,
    itemsFrom_sectionLoop, itemsFrom_signatureCalls, specItems, List.enum]
  simp [itemsFrom, blocksFrom, Block.item?, titleCalls, footerCalls]

/-! ## Projections of the section content -/

theorem filterMap_flatMap {α β γ : Type} (l : List α) (g : α → List β)
    (f : β → Option γ) :
    (l.flatMap g).filterMap f = l.flatMap fun a => (g a).filterMap f := by
  induction l with
  | nil => rfl
  | cons a l ih => simp [List.filterMap_append, ih]

theorem flatMap_singleton_eq_map {α β : Type} (l : List α) (g : α → β) :
    (l.flatMap fun a => [g a]) = l.map g := by
  induction l with
  | nil => rfl
  | cons a l ih => simp [ih]

theorem map_snd_enumFrom {α β : Type} (l : List α) (g : α → β) (i : Nat) :
    (l.enumFrom i).map (fun p => g p.2) = l.map g := by
  induction l generalizing i with
  | nil => rfl
  | cons a l ih => simp [ih]

theorem length_flatMap_enumFrom {α β : Type} (l : List α) (g : Nat × α → List β)
    (n : α → Nat) (h : ∀ p, (g p).length = n p.2) (i : Nat) :
    ((l.enumFrom i).flatMap g).length = (l.map n).sum := by
  induction l generalizing i with
  | nil => rfl
  | cons a l ih => simp [ih, h]

theorem filterMap_none {α β : Type} (l : List α) :
    l.filterMap (fun _ => (none : Option β)) = [] := by
  induction l with
  | nil => rfl
  | cons a l ih => simp [ih]

theorem filterMap_some {α : Type} (l : List α) : l.filterMap (fun a => some a) = l := by
  induction l with
  | nil => rfl
  | cons a l ih => simp

theorem headings_specTaskItems (b : Browser) (i j : Nat) (task : String) :
    (specTaskItems b i j task).filterMap Item.heading? = [] := by
  have h1 : (Item.heading? ∘ Item.commentLine) = fun _ => none := rfl
  have h2 : (Item.heading? ∘ fun p : String × ℚ × ℚ => Item.photo p.1 p.2.1 p.2.2)
      = fun _ => none := rfl
  simp [specTaskItems, List.filterMap_append, List.filterMap_map, h1, h2, filterMap_none,
    Item.heading?]

theorem statusLines_specTaskItems (b : Browser) (i j : Nat) (task : String) :
    (specTaskItems b i j task).filterMap Item.statusLine? = [specStatusLine b i j task] := by
  have h1 : (Item.statusLine? ∘ Item.commentLine) = fun _ => none := rfl
  have h2 : (Item.statusLine? ∘ fun p : String × ℚ × ℚ => Item.photo p.1 p.2.1 p.2.2)
      = fun _ => none := rfl
  simp [specTaskItems, List.filterMap_append, List.filterMap_map, h1, h2, filterMap_none,
    Item.statusLine?]

theorem commentLines_specTaskItems (b : Browser) (i j : Nat) (task : String) :
    (specTaskItems b i j task).filterMap Item.commentLine? = specCommentLines b i j := by
  have h1 : (Item.commentLine? ∘ Item.commentLine) = fun s => some s := rfl
  have h2 : (Item.commentLine? ∘ fun p : String × ℚ × ℚ => Item.photo p.1 p.2.1 p.2.2)
      = fun _ => none := rfl
  simp [specTaskItems, List.filterMap_append, List.filterMap_map, h1, h2, filterMap_none,
    filterMap_some, Item.commentLine?]

theorem flatMap_nil_fun {α β : Type} (l : List α) :
    (l.flatMap fun _ => ([] : List β)) = [] := by
  induction l with
  | nil => rfl
  | cons a l ih => simp [ih]

/-- C1. The report has one section heading per section, in order, and one status line
`- task: status` per task, in order, whose status is `OK` exactly when the checkbox of that
section and task index exists and is checked, and `KO` otherwise; so there are N headings
and sum(T_i) status lines. -/
theorem generatePDF_headings_statusLines (b : Browser) (sections : List Section) :
    headings (generatePDF b sections) = sections.map (fun sec => sec.name)
    ∧ (headings (generatePDF b sections)).length = sections.length
    ∧ statusLines (generatePDF b sections)
        = sections.enum.flatMap (fun is => is.2.tasks.enum.map fun jt =>
            "- " ++ jt.2 ++ ": "
              ++ (if b.document.checkbox is.1 jt.1 = some ⟨true⟩ then "OK" else "KO"))
    ∧ (statusLines (generatePDF b sections)).length
        = (sections.map fun sec => sec.tasks.length).sum := by
  have hh : headings (generatePDF b sections) = sections.map (fun sec => sec.name) := by
    simp only [headings, items_generatePDF, specItems, filterMap_flatMap, specSectionItems,
      List.filterMap_cons, headings_specTaskItems, flatMap_nil_fun, Item.heading?]
    simp [flatMap_singleton_eq_map, List.enum, map_snd_enumFrom sections (fun sec => sec.name)]
  have hs : statusLines (generatePDF b sections)
      = sections.enum.flatMap (fun is => is.2.tasks.enum.map fun jt =>
          "- " ++ jt.2 ++ ": "
            ++ (if b.document.checkbox is.1 jt.1 = some ⟨true⟩ then "OK" else "KO")) := by
    simp only [statusLines, items_generatePDF, specItems, filterMap_flatMap, specSectionItems,
      List.filterMap_cons, statusLines_specTaskItems, Item.statusLine?,
      flatMap_singleton_eq_map, specStatusLine]
  refine ⟨hh, ?_, hs, ?_⟩
  · rw [hh, List.length_map]
  · rw [hs]
    exact length_flatMap_enumFrom sections _ (fun sec => sec.tasks.length)
      (fun p => by simp [List.enum]) 0

theorem trim_eq_empty_iff (s : String) :
    trim s = "" ↔ ∀ c ∈ s.data, isTrimChar c = true := by
  constructor
  · intro h
    have h1 : ((s.data.dropWhile isTrimChar).reverse.dropWhile isTrimChar).reverse = [] :=
      congrArg String.data h
    have h2 : ∀ c ∈ s.data.dropWhile isTrimChar, isTrimChar c = true := by
      intro c hc
      exact List.dropWhile_eq_nil_iff.mp (List.reverse_eq_nil_iff.mp h1) c
        (List.mem_reverse.mpr hc)
    have h3 : s.data.dropWhile isTrimChar = [] := by
      cases hd : s.data.dropWhile isTrimChar with
      | nil => rfl
      | cons d l =>
        have hne : s.data.dropWhile isTrimChar ≠ [] := by simp [hd]
        have h4 := List.head_dropWhile_not isTrimChar s.data hne
        have h5 := h2 _ (List.head_mem hne)
        rw [h4] at h5
        cases h5
    exact List.dropWhile_eq_nil_iff.mp h3
  · intro h
    have h1 : s.data.dropWhile isTrimChar = [] := List.dropWhile_eq_nil_iff.mpr h
    simp [trim, h1]

/-- C2. The comment lines of the report are, task by task in checklist order: none for a
task whose comment field is absent or whose trimmed comment is empty, and the single line
`Commentaire: c`, with `c` the trimmed comment, for a task whose trimmed comment is not
empty; the trimmed comment is empty exactly when the comment is empty or consists of white
space only. -/
theorem generatePDF_commentLines (b : Browser) (sections : List Section) :
    commentLines (generatePDF b sections)
        = sections.enum.flatMap (fun is => is.2.tasks.enum.flatMap fun jt =>
            match b.document.commentInput is.1 jt.1 with
            | none => []
            | some c => if trim c.value = "" then [] else ["Commentaire: " ++ trim c.value])
    ∧ ∀ s : String, trim s = "" ↔ ∀ c ∈ s.data, isTrimChar c = true := by
  refine ⟨?_, trim_eq_empty_iff⟩
  simp only [commentLines, items_generatePDF, specItems, filterMap_flatMap, specSectionItems,
    List.filterMap_cons, commentLines_specTaskItems, Item.commentLine?]
  congr 1
  funext is
  congr 1
  funext jt
  unfold specCommentLines specComment
  cases b.document.commentInput is.1 jt.1 <;> simp

/-- C5. The section content of the report follows checklist order: the sections in order,
each as its heading followed by its tasks in order, each task as its status line, then its
comment line (if any), then its photo (if any). In particular, for the one section `Test`
with tasks `A` (checked, comment `fine`) and `B` (unchecked, empty comment, no file), the
content is the heading, `- A: OK`, `Commentaire: fine`, the photo of `A` if it has one, and
`- B: KO`, with nothing after it. -/
theorem generatePDF_checklist_order (b : Browser) (sections : List Section) :
    items (generatePDF b sections)
        = sections.enum.flatMap (fun is =>
            Item.heading is.2.name :: is.2.tasks.enum.flatMap fun jt =>
              [Item.statusLine (specStatusLine b is.1 jt.1 jt.2)]
                ++ (specCommentLines b is.1 jt.1).map Item.commentLine
                ++ (specPhotos b is.1 jt.1).map fun p => Item.photo p.1 p.2.1 p.2.2)
    ∧ (b.document.checkbox 0 0 = some ⟨true⟩ →
       b.document.commentInput 0 0 = some ⟨"fine"⟩ →
       b.document.checkbox 0 1 = some ⟨false⟩ →
       b.document.commentInput 0 1 = some ⟨""⟩ →
       b.document.photoInput 0 1 = some ⟨some []⟩ →
       items (generatePDF b [⟨"Test", ["A", "B"]⟩])
         = [Item.heading "Test", Item.statusLine "- A: OK", Item.commentLine "Commentaire: fine"]
            ++ ((specPhotos b 0 0).map fun p => Item.photo p.1 p.2.1 p.2.2)
            ++ [Item.statusLine "- B: KO"]) := by
  constructor
  · rw [items_generatePDF]
    rfl
  · intro hA hAc hB hBc hBp
    have t1 : trim "fine" = "fine" := by decide
    have t2 : trim "" = "" := by decide
    have e1 : ("- " ++ "A" ++ ": " ++ "OK" : String) = "- A: OK" := by decide
    have e2 : ("- " ++ "B" ++ ": " ++ "KO" : String) = "- B: KO" := by decide
    have e3 : ("Commentaire: " ++ "fine" : String) = "Commentaire: fine" := by decide
    have n1 : ¬ ("fine" : String) = "" := by decide
    have p1 : specPhotos b 0 1 = [] := by simp [specPhotos, photoFile, hBp]
    rw [items_generatePDF]
    simp [specItems, specSectionItems, specTaskItems, specStatusLine, specCommentLines,
      specComment, List.enum, hA, hAc, hB, hBc, p1, t1, t2, e1, e2, e3, n1]

theorem legalBlocksFrom_append (a c : List DocCall) (page size : Nat) :
    legalBlocksFrom page size (a ++ c)
      = legalBlocksFrom page size a
        ++ legalBlocksFrom (pageAfter page a) (sizeAfter size a) c := by
  simp [legalBlocksFrom, blocksFrom_append]

theorem legalBlocksFrom_taskBody (b : Browser) (i j : Nat) (task : String) (y : ℚ)
    (page size : Nat) : legalBlocksFrom page size (taskBody b i j task y).1 = [] := by
  unfold taskBody commentCalls photoCalls statusCalls
  split <;> split <;> simp [legalBlocksFrom, blocksFrom, Block.isLegal]

theorem legalBlocksFrom_taskLoop (b : Browser) (i : Nat) (tasks : List String) (j : Nat)
    (y : ℚ) (page size : Nat) : legalBlocksFrom page size (taskLoop b i j tasks y).1 = [] := by
  induction tasks generalizing j y page size with
  | nil => simp [taskLoop, legalBlocksFrom, blocksFrom]
  | cons t ts ih => simp [taskLoop, legalBlocksFrom_append, legalBlocksFrom_taskBody, ih]

theorem legalBlocksFrom_sectionBody (b : Browser) (i : Nat) (sec : Section) (y : ℚ)
    (page size : Nat) : legalBlocksFrom page size (sectionBody b i sec y).1 = [] := by
  have hp : ∀ (y : ℚ) (page size : Nat), legalBlocksFrom page size (pageBreak y).1 = [] := by
    intro y page size
    unfold pageBreak
    split <;> simp [legalBlocksFrom, blocksFrom]
  simp only [sectionBody, sectionCalls, legalBlocksFrom_append, legalBlocksFrom_taskLoop, hp,
    List.append_nil]
  simp [legalBlocksFrom, blocksFrom, Block.isLegal]

theorem legalBlocksFrom_sectionLoop (b : Browser) (sections : List Section) (i : Nat) (y : ℚ)
    (page size : Nat) : legalBlocksFrom page size (sectionLoop b i sections y).1 = [] := by
  induction sections generalizing i y page size with
  | nil => simp [sectionLoop, legalBlocksFrom, blocksFrom]
  | cons sec secs ih =>
    simp [sectionLoop, legalBlocksFrom_append, legalBlocksFrom_sectionBody, ih]

theorem legalBlocksFrom_logoCalls (b : Browser) (y : ℚ) (page size : Nat) :
    legalBlocksFrom page size (logoCalls b y).1 = [] := by
  unfold logoCalls
  split <;> simp [legalBlocksFrom, blocksFrom, Block.isLegal]

theorem legalBlocksFrom_signatureCalls (b : Browser) (y : ℚ) (page size : Nat) :
    legalBlocksFrom page size (signatureCalls b y).1 = [] := by
  unfold signatureCalls
  split <;> simp [legalBlocksFrom, blocksFrom, Block.isLegal]

theorem saves_append (a c : List DocCall) : saves (a ++ c) = saves a ++ saves c := by
  simp [saves]

theorem saves_taskLoop (b : Browser) (i : Nat) (tasks : List String) (j : Nat) (y : ℚ) :
    saves (taskLoop b i j tasks y).1 = [] := by
  induction tasks generalizing j y with
  | nil => simp [taskLoop, saves]
  | cons t ts ih =>
    have ht : saves (taskBody b i j t y).1 = [] := by
      unfold taskBody commentCalls photoCalls statusCalls
      split <;> split <;> simp [saves, DocCall.isSave]
    simp [taskLoop, saves_append, ht, ih]

theorem saves_pageBreak (y : ℚ) : saves (pageBreak y).1 = [] := by
  unfold pageBreak
  split <;> simp [saves, DocCall.isSave]

theorem saves_sectionLoop (b : Browser) (sections : List Section) (i : Nat) (y : ℚ) :
    saves (sectionLoop b i sections y).1 = [] := by
  induction sections generalizing i y with
  | nil => simp [sectionLoop, saves]
  | cons sec secs ih =>
    have hh : saves [DocCall.setFontSize 14, DocCall.text sec.name 20 y] = [] := by
      simp [saves, DocCall.isSave]
    simp only [sectionLoop, sectionBody, sectionCalls, saves_append, saves_taskLoop,
      saves_pageBreak, hh, ih, List.append_nil]

theorem saves_logoCalls (b : Browser) (y : ℚ) : saves (logoCalls b y).1 = [] := by
  unfold logoCalls
  split <;> simp [saves, DocCall.isSave]

theorem saves_signatureCalls (b : Browser) (y : ℚ) : saves (signatureCalls b y).1 = [] := by
  unfold signatureCalls
  split <;> simp [saves, DocCall.isSave]

theorem pageAfter_footerCalls (page : Nat) : pageAfter page footerCalls = page := rfl

/-- C10. The report draws one text at font size 8, the legal mention, at the fixed position
`(20, 285)` whatever the cursor; it is the last block and lies on the last page (every page
break comes before it); the calls end with it and the save under `rapport_novacheck.pdf`,
which is the only save. -/
theorem generatePDF_legal_footer (b : Browser) (sections : List Section) :
    legalBlocks (generatePDF b sections)
        = [Block.text (pageCount (generatePDF b sections)) 8 legalText 20 285]
    ∧ (blocks (generatePDF b sections)).getLast?
        = some (Block.text (pageCount (generatePDF b sections)) 8 legalText 20 285)
    ∧ saves (generatePDF b sections) = [DocCall.save "rapport_novacheck.pdf"]
    ∧ ∃ body, generatePDF b sections
        = body ++ [DocCall.setFontSize 8, DocCall.text legalText 20 285,
            DocCall.save "rapport_novacheck.pdf"] := by
  have hgen : generatePDF b sections
      = ((logoCalls b 20).1 ++ (titleCalls (logoCalls b 20).2).1
          ++ (sectionLoop b 0 sections (titleCalls (logoCalls b 20).2).2).1
          ++ (signatureCalls b
                (sectionLoop b 0 sections (titleCalls (logoCalls b 20).2).2).2).1)
        ++ footerCalls := rfl
  have hpc : pageCount (generatePDF b sections)
      = pageAfter 1 ((logoCalls b 20).1 ++ (titleCalls (logoCalls b 20).2).1
          ++ (sectionLoop b 0 sections (titleCalls (logoCalls b 20).2).2).1
          ++ (signatureCalls b
                (sectionLoop b 0 sections (titleCalls (logoCalls b 20).2).2).2).1) := by
    rw [pageCount, hgen, pageAfter_append, pageAfter_footerCalls]
  refine ⟨?_, ?_, ?_, _, hgen⟩
  · rw [hpc, legalBlocks, hgen]
    simp only [legalBlocksFrom_append, legalBlocksFrom_logoCalls, legalBlocksFrom_sectionLoop,
      legalBlocksFrom_signatureCalls, List.append_nil, List.nil_append]
    simp [legalBlocksFrom, blocksFrom, Block.isLegal, titleCalls, footerCalls]
  · rw [hpc, blocks, hgen, blocksFrom_append]
    simp [footerCalls, blocksFrom]
  · have h5 : ∀ y, saves (titleCalls y).1 = [] := by
      intro y
      simp [titleCalls, saves, DocCall.isSave]
    have h6 : saves footerCalls = [DocCall.save "rapport_novacheck.pdf"] := by
      simp [footerCalls, saves, DocCall.isSave]
    rw [hgen]
    simp only [saves_append, saves_logoCalls, saves_sectionLoop, saves_signatureCalls, h5, h6,
      List.nil_append]

/-! ## The page break after a section -/

theorem sectionLoop_cons (b : Browser) (sec : Section) (l : List Section) (i : Nat) (y : ℚ) :
    sectionLoop b i (sec :: l) y
      = ((sectionBody b i sec y).1 ++ (sectionLoop b (i + 1) l (sectionBody b i sec y).2).1,
         (sectionLoop b (i + 1) l (sectionBody b i sec y).2).2) := rfl

theorem sectionLoop_append (b : Browser) (l1 l2 : List Section) (i : Nat) (y : ℚ) :
    sectionLoop b i (l1 ++ l2) y
      = ((sectionLoop b i l1 y).1
          ++ (sectionLoop b (i + l1.length) l2 (sectionLoop b i l1 y).2).1,
         (sectionLoop b (i + l1.length) l2 (sectionLoop b i l1 y).2).2) := by
  induction l1 generalizing i y with
  | nil => simp [sectionLoop]
  | cons sec l1 ih =>
    have e : i + 1 + l1.length = i + (l1.length + 1) := by omega
    have ih2 := ih (i + 1) (sectionBody b i sec y).2
    rw [e] at ih2
    rw [List.cons_append, sectionLoop_cons, sectionLoop_cons, ih2]
    simp only [List.length_cons, List.append_assoc]

theorem pageBreak_snd (y : ℚ) : (pageBreak y).2 = if y + 4 > 260 then 20 else y + 4 := by
  unfold pageBreak
  split <;> rfl

/-- C2, at concrete inputs: a whitespace-only comment trims to the empty string. -/
theorem generatePDF_commentLines_witness :
    (∀ c ∈ (" \t ".data : List Char), isTrimChar c = true) ∧ trim " \t " = "" :=
  ⟨by decide, ((generatePDF_commentLines scenarioBrowser []).2 " \t ").mpr (by decide)⟩

/-- C5, at the page of the scenario. -/
theorem generatePDF_checklist_order_witness :
    items (generatePDF scenarioBrowser [⟨"Test", ["A", "B"]⟩])
      = [Item.heading "Test", Item.statusLine "- A: OK", Item.commentLine "Commentaire: fine"]
          ++ ((specPhotos scenarioBrowser 0 0).map fun p => Item.photo p.1 p.2.1 p.2.2)
          ++ [Item.statusLine "- B: KO"] :=
  (generatePDF_checklist_order scenarioBrowser []).2 rfl rfl rfl rfl rfl

/-! ## JSON: parsing what `JSON.stringify` prints of a checklist -/

theorem parseEscape_quoteChar (c : Char) (tail : List Char)
    (h : c.toNat < 32 ∨ c = '"' ∨ c = '\\') :
    ∃ esc, quoteChar c = '\\' :: esc ∧ parseEscape (esc ++ tail) = some (c, tail) := by
  rcases h with h32 | hq | hb
  · have hc : c = Char.ofNat c.toNat := by simp
    generalize c.toNat = n at hc h32
    subst hc
    interval_cases n <;> exact ⟨_, rfl, rfl⟩
  · subst hq
    exact ⟨_, rfl, rfl⟩
  · subst hb
    exact ⟨_, rfl, rfl⟩

theorem parseChars_quoteChar (c : Char) (tail : List Char) (fuel : Nat) :
    parseChars (fuel + 1) (quoteChar c ++ tail) = consChar c (parseChars fuel tail) := by
  by_cases h : c.toNat < 32 ∨ c = '"' ∨ c = '\\'
  · obtain ⟨esc, h1, h2⟩ := parseEscape_quoteChar c tail h
    rw [h1, List.cons_append, parseChars]
    simp [h2]
  · have h32 : ¬ c.toNat < 32 := fun h1 => h (Or.inl h1)
    have hq : ¬ c = '"' := fun h1 => h (Or.inr (Or.inl h1))
    have hb : ¬ c = '\\' := fun h1 => h (Or.inr (Or.inr h1))
    have h8 : c.toNat ≠ 8 := by omega
    have h12 : c.toNat ≠ 12 := by omega
    have h10 : c.toNat ≠ 10 := by omega
    have h13 : c.toNat ≠ 13 := by omega
    have h9 : c.toNat ≠ 9 := by omega
    simp [quoteChar, parseChars, hq, hb, h8, h12, h10, h13, h9, h32]

theorem parseChars_quoteChars (s rest : List Char) (fuel : Nat) (h : s.length < fuel) :
    parseChars fuel (quoteChars s ++ '"' :: rest) = some (s, rest) := by
  induction s generalizing fuel with
  | nil =>
    cases fuel with
    | zero => simp at h
    | succ n => simp [quoteChars, parseChars]
  | cons c s ih =>
    cases fuel with
    | zero => simp at h
    | succ n =>
      have hn : s.length < n := by simpa using h
      rw [quoteChars, List.append_assoc, parseChars_quoteChar, ih n hn]
      rfl

theorem length_quoteChars (s : List Char) : s.length ≤ (quoteChars s).length := by
  induction s with
  | nil => simp
  | cons c s ih =>
    have h : 1 ≤ (quoteChar c).length := by
      unfold quoteChar
      repeat' split
      all_goals simp
    simp only [quoteChars, List.length_append, List.length_cons]
    omega

theorem parseString_quoteChars (s : String) (rest : List Char) :
    parseString (quoteChars s.data ++ '"' :: rest) = some (s, rest) := by
  have h := length_quoteChars s.data
  rw [parseString, parseChars_quoteChars]
  · rfl
  · simp only [List.length_append, List.length_cons]
    omega

theorem skipSpace_cons (c : Char) (cs : List Char) (h : isJsonSpace c = false) :
    skipSpace (c :: cs) = c :: cs := by
  simp [skipSpace, List.dropWhile, h]

theorem quote_append (s : String) (rest : List Char) :
    quote s ++ rest = '"' :: (quoteChars s.data ++ '"' :: rest) := by
  simp [quote]

theorem parseValue_str (fuel : Nat) (s : String) (rest : List Char) :
    parseValue (fuel + 1) (quote s ++ rest) = some (JVal.str s, rest) := by
  rw [quote_append, parseValue, skipSpace_cons _ _ (by decide)]
  simp [parseString_quoteChars]

theorem renderElements_cons_cons (v w : JVal) (vs : List JVal) :
    renderElements (v :: w :: vs) = render v ++ ',' :: renderElements (w :: vs) := by
  rw [renderElements]

theorem renderElements_singleton (v : JVal) : renderElements [v] = render v := by
  rw [renderElements]

theorem parseElements_strs (fuel n : Nat) (t : String) (ts : List String) (rest : List Char)
    (h : ts.length < n) :
    parseElements (parseValue (fuel + 1)) n
        (renderElements ((t :: ts).map JVal.str) ++ ']' :: rest)
      = some ((t :: ts).map JVal.str, rest) := by
  induction ts generalizing t n with
  | nil =>
    cases n with
    | zero => simp at h
    | succ n =>
      simp only [List.map_cons, List.map_nil, renderElements_singleton, render, parseElements,
        parseValue_str, skipSpace_cons _ _ (by decide : isJsonSpace ']' = false)]
      simp
  | cons t1 ts ih =>
    cases n with
    | zero => simp at h
    | succ n =>
      have hn : ts.length < n := by simpa using h
      have ih1 := ih n t1 hn
      simp only [List.map_cons] at ih1
      simp only [List.map_cons, renderElements_cons_cons, render, List.append_assoc,
        List.cons_append, parseElements, parseValue_str,
        skipSpace_cons _ _ (by decide : isJsonSpace ',' = false), ih1]
      simp

theorem parseElements_last (value : List Char → Option (JVal × List Char)) (n : Nat)
    (cs : List Char) (v : JVal) (rest : List Char) (hv : value cs = some (v, ']' :: rest)) :
    parseElements value (n + 1) cs = some ([v], rest) := by
  rw [parseElements, hv]
  simp [skipSpace_cons _ _ (by decide : isJsonSpace ']' = false)]

theorem parseElements_more (value : List Char → Option (JVal × List Char)) (n : Nat)
    (cs : List Char) (v : JVal) (r : List Char) (hv : value cs = some (v, ',' :: r)) :
    parseElements value (n + 1) cs
      = (parseElements value n r).map fun p => (v :: p.1, p.2) := by
  rw [parseElements, hv]
  simp [skipSpace_cons _ _ (by decide : isJsonSpace ',' = false)]

theorem parseMembers_last (value : List Char → Option (JVal × List Char)) (n : Nat)
    (k : String) (cs : List Char) (v : JVal) (rest : List Char)
    (hv : value cs = some (v, '}' :: rest)) :
    parseMembers value (n + 1) (quote k ++ ':' :: cs) = some ([(k, v)], rest) := by
  rw [quote_append, parseMembers, skipSpace_cons _ _ (by decide : isJsonSpace '"' = false)]
  simp only [parseString_quoteChars, if_true,
    skipSpace_cons _ _ (by decide : isJsonSpace ':' = false), hv,
    skipSpace_cons _ _ (by decide : isJsonSpace '}' = false)]
  simp

theorem parseMembers_more (value : List Char → Option (JVal × List Char)) (n : Nat)
    (k : String) (cs : List Char) (v : JVal) (r : List Char)
    (hv : value cs = some (v, ',' :: r)) :
    parseMembers value (n + 1) (quote k ++ ':' :: cs)
      = (parseMembers value n r).map fun p => ((k, v) :: p.1, p.2) := by
  rw [quote_append, parseMembers, skipSpace_cons _ _ (by decide : isJsonSpace '"' = false)]
  simp only [parseString_quoteChars, if_true,
    skipSpace_cons _ _ (by decide : isJsonSpace ':' = false), hv,
    skipSpace_cons _ _ (by decide : isJsonSpace ',' = false)]

theorem renderElements_strs_head (t : String) (ts : List String) (r : List Char) :
    renderElements ((t :: ts).map JVal.str) ++ r
      = '"' :: (quoteChars t.data ++ '"' ::
          (match ts with
            | [] => r
            | t1 :: ts1 => ',' :: (renderElements ((t1 :: ts1).map JVal.str) ++ r))) := by
  cases ts with
  | nil => simp only [List.map_cons, List.map_nil, renderElements_singleton, render, quote_append]
  | cons t1 ts =>
    simp only [List.map_cons, renderElements_cons_cons, render, List.append_assoc,
      quote_append, List.cons_append]

theorem parseValue_strArr (fuel : Nat) (ts : List String) (rest : List Char)
    (h : ts.length ≤ fuel) :
    parseValue (fuel + 1) (render (JVal.arr (ts.map JVal.str)) ++ rest)
      = some (JVal.arr (ts.map JVal.str), rest) := by
  cases ts with
  | nil =>
    simp [render, renderElements, parseValue,
      skipSpace_cons _ _ (by decide : isJsonSpace '[' = false),
      skipSpace_cons _ _ (by decide : isJsonSpace ']' = false)]
  | cons t ts =>
    cases fuel with
    | zero => simp at h
    | succ f =>
      have hl : ts.length < f + 1 := by
        simp only [List.length_cons] at h
        omega
      have he := parseElements_strs f (f + 1) t ts rest hl
      have hr : render (JVal.arr ((t :: ts).map JVal.str)) ++ rest
          = '[' :: (renderElements ((t :: ts).map JVal.str) ++ ']' :: rest) := by
        simp [render]
      rw [hr, parseValue, skipSpace_cons _ _ (by decide : isJsonSpace '[' = false)]
      simp only [he]
      rw [renderElements_strs_head, skipSpace_cons _ _ (by decide : isJsonSpace '"' = false)]
      simp

theorem render_section (sec : Section) (rest : List Char) :
    render sec.toJVal ++ rest
      = '{' :: (quote "name" ++ (':' :: (quote sec.name ++ (',' :: (quote "tasks"
          ++ (':' :: (render (JVal.arr (sec.tasks.map JVal.str)) ++ ('}' :: rest)))))))) := by
  simp [Section.toJVal, render, renderMembers]

theorem parseValue_section (fuel : Nat) (sec : Section) (rest : List Char)
    (h : sec.tasks.length + 2 ≤ fuel) :
    parseValue (fuel + 1) (render sec.toJVal ++ rest) = some (sec.toJVal, rest) := by
  obtain ⟨m, rfl⟩ : ∃ m, fuel = m + 2 := ⟨fuel - 2, by omega⟩
  have ha := parseValue_strArr (m + 1) sec.tasks ('}' :: rest) (by omega)
  have hv := parseValue_str (m + 1) sec.name
    (',' :: (quote "tasks" ++ (':' ::
      (render (JVal.arr (sec.tasks.map JVal.str)) ++ '}' :: rest))))
  have h2 := parseMembers_last (parseValue (m + 2)) m "tasks" _ _ rest ha
  have h1 := parseMembers_more (parseValue (m + 2)) (m + 1) "name" _ _ _ hv
  rw [h2] at h1
  rw [render_section, parseValue, skipSpace_cons _ _ (by decide : isJsonSpace '{' = false)]
  simp only [h1]
  rw [quote_append, skipSpace_cons _ _ (by decide : isJsonSpace '"' = false)]
  simp [Section.toJVal]

theorem parseElements_sections (fuel n : Nat) (sec : Section) (secs : List Section)
    (rest : List Char) (hn : secs.length < n)
    (hf : ∀ s ∈ sec :: secs, s.tasks.length + 2 ≤ fuel) :
    parseElements (parseValue (fuel + 1)) n
        (renderElements ((sec :: secs).map Section.toJVal) ++ ']' :: rest)
      = some ((sec :: secs).map Section.toJVal, rest) := by
  induction secs generalizing sec n with
  | nil =>
    cases n with
    | zero => simp at hn
    | succ n =>
      simp only [List.map_cons, List.map_nil, renderElements_singleton]
      exact parseElements_last _ n _ _ rest
        (parseValue_section fuel sec _ (hf sec (List.mem_cons_self _ _)))
  | cons s1 secs ih =>
    cases n with
    | zero => simp at hn
    | succ n =>
      have hn1 : secs.length < n := by
        simp only [List.length_cons] at hn
        omega
      have ih1 := ih n s1 hn1 (fun s hs => hf s (List.mem_cons_of_mem _ hs))
      simp only [List.map_cons] at ih1
      simp only [List.map_cons, renderElements_cons_cons, List.append_assoc, List.cons_append]
      rw [parseElements_more _ n _ _ _
        (parseValue_section fuel sec _ (hf sec (List.mem_cons_self _ _))), ih1]
      rfl

theorem parseValue_checklist (fuel : Nat) (secs : List Section) (rest : List Char)
    (hn : secs.length ≤ fuel) (hf : ∀ s ∈ secs, s.tasks.length + 3 ≤ fuel) :
    parseValue (fuel + 1) (render (toJVal secs) ++ rest) = some (toJVal secs, rest) := by
  cases secs with
  | nil =>
    simp [toJVal, render, renderElements, parseValue,
      skipSpace_cons _ _ (by decide : isJsonSpace '[' = false),
      skipSpace_cons _ _ (by decide : isJsonSpace ']' = false)]
  | cons sec secs =>
    cases fuel with
    | zero => simp at hn
    | succ f =>
      have hl : secs.length < f + 1 := by
        simp only [List.length_cons] at hn
        omega
      have he := parseElements_sections f (f + 1) sec secs rest hl
        (fun s hs => by have := hf s hs; omega)
      have hr : render (toJVal (sec :: secs)) ++ rest
          = '[' :: (renderElements ((sec :: secs).map Section.toJVal) ++ ']' :: rest) := by
        simp [toJVal, render]
      have hh : ∃ tail, renderElements ((sec :: secs).map Section.toJVal) ++ ']' :: rest
          = '{' :: tail := by
        cases secs with
        | nil =>
          simp only [List.map_cons, List.map_nil, renderElements_singleton, render_section]
          exact ⟨_, rfl⟩
        | cons s1 secs =>
          simp only [List.map_cons, renderElements_cons_cons, List.append_assoc,
            render_section]
          exact ⟨_, rfl⟩
      obtain ⟨tail, ht⟩ := hh
      rw [hr, parseValue, skipSpace_cons _ _ (by decide : isJsonSpace '[' = false)]
      simp only [he]
      rw [ht, skipSpace_cons _ _ (by decide : isJsonSpace '{' = false)]
      simp [toJVal]

theorem length_renderElements_mem (vs : List JVal) (v : JVal) (h : v ∈ vs) :
    (render v).length ≤ (renderElements vs).length := by
  induction vs with
  | nil => simp at h
  | cons w vs ih =>
    cases vs with
    | nil =>
      have : v = w := by simpa using h
      subst this
      rw [renderElements_singleton]
    | cons w1 vs =>
      rw [renderElements_cons_cons]
      simp only [List.length_append, List.length_cons]
      rcases List.mem_cons.mp h with h1 | h1
      · subst h1
        omega
      · have := ih h1
        omega

theorem length_renderElements_count (vs : List JVal)
    (h : ∀ v ∈ vs, 1 ≤ (render v).length) : vs.length ≤ (renderElements vs).length := by
  induction vs with
  | nil => simp
  | cons w vs ih =>
    cases vs with
    | nil =>
      have := h w (List.mem_cons_self _ _)
      rw [renderElements_singleton]
      simpa using this
    | cons w1 vs =>
      have h1 := ih (fun v hv => h v (List.mem_cons_of_mem _ hv))
      rw [renderElements_cons_cons]
      simp only [List.length_append, List.length_cons] at h1 ⊢
      omega

theorem length_render_str (s : String) : 2 ≤ (render (JVal.str s)).length := by
  simp [render, quote]

theorem length_render_section (sec : Section) :
    sec.tasks.length + 3 ≤ (render sec.toJVal).length := by
  have h1 := length_renderElements_count (sec.tasks.map JVal.str) (fun v hv => by
    obtain ⟨t, _, rfl⟩ := List.mem_map.mp hv
    have := length_render_str t
    omega)
  have h2 := render_section sec []
  simp only [List.append_nil] at h2
  rw [h2]
  simp only [render, List.length_cons, List.length_append, List.length_map] at h1 ⊢
  omega

theorem render_toJVal (secs : List Section) :
    render (toJVal secs) = '[' :: renderElements (secs.map Section.toJVal) ++ [']'] := by
  rw [toJVal, render]

/-- The call `JSON.parse` reads back the checklist that `JSON.stringify` printed. -/
theorem parse_stringify (secs : List Section) :
    JSON.parse (JSON.stringify (toJVal secs)) = .ok (toJVal secs) := by
  have hlen : ∀ s ∈ secs, (render s.toJVal).length ≤ (render (toJVal secs)).length := by
    intro s hs
    have := length_renderElements_mem (secs.map Section.toJVal) s.toJVal
      (List.mem_map_of_mem _ hs)
    rw [render_toJVal]
    simp only [List.length_cons, List.length_append]
    omega
  have hcount : secs.length ≤ (render (toJVal secs)).length := by
    have := length_renderElements_count (secs.map Section.toJVal) (fun v hv => by
      obtain ⟨s, _, rfl⟩ := List.mem_map.mp hv
      have := length_render_section s
      omega)
    rw [render_toJVal]
    simp only [List.length_cons, List.length_append, List.length_map] at this ⊢
    omega
  have hp := parseValue_checklist (render (toJVal secs)).length secs [] hcount
    (fun s hs => by
      have h1 := length_render_section s
      have h2 := hlen s hs
      omega)
  simp only [List.append_nil] at hp
  simp [JSON.parse, JSON.stringify, String.length, hp, skipSpace]

/-! ## The checklist store -/

theorem stringify_ne_empty (secs : List Section) : JSON.stringify (toJVal secs) ≠ "" := by
  intro h
  have h1 := congrArg String.data h
  rw [JSON.stringify, render_toJVal] at h1
  simp at h1

theorem toJVal_injective (c1 c2 : List Section) (h : toJVal c1 = toJVal c2) : c1 = c2 := by
  have hs : ∀ a b : Section, a.toJVal = b.toJVal → a = b := by
    intro a b hab
    cases a with
    | mk n1 t1 =>
      cases b with
      | mk n2 t2 =>
        simp only [Section.toJVal, JVal.obj.injEq, List.cons.injEq, Prod.mk.injEq,
          JVal.str.injEq, JVal.arr.injEq, true_and, and_true] at hab
        obtain ⟨h1, h2⟩ := hab
        have h3 : t1 = t2 :=
          List.map_injective_iff.mpr (fun x y hxy => by simpa using hxy) h2
        rw [h1, h3]
  simp only [toJVal, JVal.arr.injEq] at h
  exact List.map_injective_iff.mpr hs h

theorem getItem_setItem (st st1 : Storage) (key value : String)
    (hr : st.getItemThrows = false) (h : st.setItem key value = .ok st1) :
    st1.getItem key = .ok (some value) := by
  unfold Storage.setItem at h
  split at h
  · cases h
  · cases h
    simp [Storage.getItem, hr, List.lookup]

theorem storedSections_of_stored (st : Storage) (secs : List Section)
    (h : st.getItem "novacheck_sections" = .ok (some (JSON.stringify (toJVal secs)))) :
    storedSections st = some (toJVal secs) := by
  simp [storedSections, h, stringify_ne_empty, parse_stringify]

/-- C8. Round trip on a working store (neither `getItem` nor `setItem` throws): after
`saveSections(C)`, `loadSections()` returns the checklist `C` itself — the array of the
sections of `C` in order, each with its name and its tasks in order — and leaves the
storage as `saveSections` left it; this holds for every checklist, the empty one and
sections without tasks included. -/
theorem saveSections_loadSections (defaultSections c : List Section) (st : Storage)
    (hr : st.getItemThrows = false) (hw : st.setItemThrows = false) :
    loadSections defaultSections (saveSections (toJVal c) st)
        = .ok (toJVal c, saveSections (toJVal c) st)
    ∧ ∀ c1 : List Section, toJVal c1 = toJVal c → c1 = c := by
  refine ⟨?_, fun c1 h => toJVal_injective c1 c h⟩
  have hset : st.setItem "novacheck_sections" (JSON.stringify (toJVal c))
      = .ok { st with items := ("novacheck_sections", JSON.stringify (toJVal c))
                :: st.items.filter (fun kv => kv.1 != "novacheck_sections") } := by
    simp [Storage.setItem, hw]
  have hget := getItem_setItem st _ _ _ hr hset
  have hsave : saveSections (toJVal c) st
      = { st with items := ("novacheck_sections", JSON.stringify (toJVal c))
            :: st.items.filter (fun kv => kv.1 != "novacheck_sections") } := by
    simp only [saveSections, hset]
  rw [hsave]
  simp only [loadSections, storedSections_of_stored _ _ hget]

/-- C8, at a concrete store and checklist: a section without tasks and a section with two
tasks, saved over a storage that already holds other sections. -/
theorem saveSections_loadSections_witness :
    loadSections App.defaultSections
        (saveSections (toJVal [⟨"Vide", []⟩, ⟨"Test", ["A", "B"]⟩])
          ⟨[("novacheck_sections", "[]")], false, false⟩)
      = .ok (toJVal [⟨"Vide", []⟩, ⟨"Test", ["A", "B"]⟩],
          saveSections (toJVal [⟨"Vide", []⟩, ⟨"Test", ["A", "B"]⟩])
            ⟨[("novacheck_sections", "[]")], false, false⟩) :=
  (saveSections_loadSections App.defaultSections [⟨"Vide", []⟩, ⟨"Test", ["A", "B"]⟩]
    ⟨[("novacheck_sections", "[]")], false, false⟩ rfl rfl).1

/-- C9 fails on the code: on a storage with nothing under the sections key whose `setItem`
throws, `loadSections` lets the exception escape (the write of line 58 is outside the try
block), for the defaults of either file; `saveSections`, on the same storage, catches it. -/
theorem loadSections_throws_when_setItem_throws :
    loadSections App.defaultSections ⟨[], false, true⟩ = .error .quotaExceededError
    ∧ loadSections Script.defaultSections ⟨[], false, true⟩ = .error .quotaExceededError
    ∧ loadSections App.defaultSections ⟨[], true, true⟩ = .error .quotaExceededError
    ∧ saveSections (toJVal App.defaultSections) ⟨[], false, true⟩ = ⟨[], false, true⟩ :=
  ⟨rfl, rfl, rfl, rfl⟩

/-! ## The cursor invariant -/

theorem pageBreak_snd_le (y : ℚ) : (pageBreak y).2 ≤ 260 := by
  unfold pageBreak
  split
  · norm_num
  · rename_i h
    exact not_lt.mp h

theorem sectionBody_snd_le (b : Browser) (i : Nat) (sec : Section) (y : ℚ) :
    (sectionBody b i sec y).2 ≤ 260 := by
  simp only [sectionBody]
  exact pageBreak_snd_le _

theorem sectionLoop_snd_le (b : Browser) (secs : List Section) (i : Nat) (y : ℚ)
    (h : secs ≠ []) : (sectionLoop b i secs y).2 ≤ 260 := by
  induction secs generalizing i y with
  | nil => exact absurd rfl h
  | cons sec secs ih =>
    rw [sectionLoop_cons]
    cases secs with
    | nil => exact sectionBody_snd_le b i sec y
    | cons s1 secs => exact ih (i + 1) _ (by simp)

theorem headingYs_taskLoop (b : Browser) (i : Nat) (tasks : List String) (j : Nat) (y : ℚ)
    (page size : Nat) :
    (blocksFrom page size (taskLoop b i j tasks y).1).filterMap Block.headingY? = [] := by
  induction tasks generalizing j y page size with
  | nil => simp [taskLoop, blocksFrom]
  | cons t ts ih =>
    have ht : ∀ page size,
        (blocksFrom page size (taskBody b i j t y).1).filterMap Block.headingY? = [] := by
      intro page size
      unfold taskBody commentCalls photoCalls statusCalls
      split <;> split <;> simp [blocksFrom, Block.headingY?]
    simp [taskLoop, blocksFrom_append, ht, ih]

theorem headingYs_sectionBody (b : Browser) (i : Nat) (sec : Section) (y : ℚ)
    (page size : Nat) :
    (blocksFrom page size (sectionBody b i sec y).1).filterMap Block.headingY? = [y] := by
  have hp : ∀ (y : ℚ) (page size : Nat),
      (blocksFrom page size (pageBreak y).1).filterMap Block.headingY? = [] := by
    intro y page size
    unfold pageBreak
    split <;> simp [blocksFrom]
  simp only [sectionBody, sectionCalls, blocksFrom_append, List.filterMap_append,
    headingYs_taskLoop, hp, List.append_nil]
  simp [blocksFrom, Block.headingY?]

theorem headingYs_sectionLoop_le (b : Browser) (secs : List Section) (i : Nat) (y : ℚ)
    (page size : Nat) (hy : y ≤ 260) :
    ∀ c ∈ (blocksFrom page size (sectionLoop b i secs y).1).filterMap Block.headingY?,
      c ≤ 260 := by
  induction secs generalizing i y page size with
  | nil => simp [sectionLoop, blocksFrom]
  | cons sec secs ih =>
    intro c hc
    rw [sectionLoop_cons, blocksFrom_append, List.filterMap_append,
      headingYs_sectionBody] at hc
    rcases List.mem_append.mp hc with h1 | h1
    · have : c = y := by simpa using h1
      rw [this]
      exact hy
    · exact ih (i + 1) _ _ _ (sectionBody_snd_le b i sec y) c h1

theorem generatePDF_eq_header (b : Browser) (sections : List Section) :
    generatePDF b sections
      = (headerCalls b).1 ++ ((sectionLoop b 0 sections (headerCalls b).2).1
          ++ ((signatureCalls b (sectionLoop b 0 sections (headerCalls b).2).2).1
          ++ footerCalls)) := by
  simp [generatePDF, headerCalls]

theorem headingYs_headerCalls (b : Browser) (page size : Nat) :
    (blocksFrom page size (headerCalls b).1).filterMap Block.headingY? = [] := by
  unfold headerCalls logoCalls titleCalls
  split <;> simp [blocksFrom, Block.headingY?]

theorem headingYs_signatureCalls (b : Browser) (y : ℚ) (page size : Nat) :
    (blocksFrom page size ((signatureCalls b y).1 ++ footerCalls)).filterMap Block.headingY?
      = [] := by
  unfold signatureCalls footerCalls
  split <;> simp [blocksFrom, Block.headingY?]

theorem headingYs_generatePDF (b : Browser) (sections : List Section) :
    headingYs (generatePDF b sections)
      = (blocksFrom (pageAfter 1 (headerCalls b).1) (sizeAfter 16 (headerCalls b).1)
          (sectionLoop b 0 sections (headerCalls b).2).1).filterMap Block.headingY? := by
  rw [headingYs, blocks, generatePDF_eq_header, blocksFrom_append, blocksFrom_append,
    List.filterMap_append, List.filterMap_append, headingYs_headerCalls,
    headingYs_signatureCalls]
  simp

theorem length_headingYs_sectionLoop (b : Browser) (secs : List Section) (i : Nat) (y : ℚ)
    (page size : Nat) :
    ((blocksFrom page size (sectionLoop b i secs y).1).filterMap Block.headingY?).length
      = secs.length := by
  induction secs generalizing i y page size with
  | nil => simp [sectionLoop, blocksFrom]
  | cons sec secs ih =>
    rw [sectionLoop_cons, blocksFrom_append, List.filterMap_append, headingYs_sectionBody,
      List.length_append, ih]
    simp [Nat.add_comm]

theorem signatureYs_taskLoop (b : Browser) (i : Nat) (tasks : List String) (j : Nat) (y : ℚ)
    (page size : Nat) :
    (blocksFrom page size (taskLoop b i j tasks y).1).filterMap Block.signatureY? = [] := by
  induction tasks generalizing j y page size with
  | nil => simp [taskLoop, blocksFrom]
  | cons t ts ih =>
    have ht : ∀ page size,
        (blocksFrom page size (taskBody b i j t y).1).filterMap Block.signatureY? = [] := by
      intro page size
      unfold taskBody commentCalls photoCalls statusCalls
      split <;> split <;> simp [blocksFrom, Block.signatureY?]
    simp [taskLoop, blocksFrom_append, ht, ih]

theorem signatureYs_sectionLoop (b : Browser) (secs : List Section) (i : Nat) (y : ℚ)
    (page size : Nat) :
    (blocksFrom page size (sectionLoop b i secs y).1).filterMap Block.signatureY? = [] := by
  induction secs generalizing i y page size with
  | nil => simp [sectionLoop, blocksFrom]
  | cons sec secs ih =>
    have hp : ∀ (y : ℚ) (page size : Nat),
        (blocksFrom page size (pageBreak y).1).filterMap Block.signatureY? = [] := by
      intro y page size
      unfold pageBreak
      split <;> simp [blocksFrom]
    have hh : ∀ page size,
        (blocksFrom page size [DocCall.setFontSize 14, DocCall.text sec.name 20 y]).filterMap
          Block.signatureY? = [] := by
      intro page size
      simp [blocksFrom, Block.signatureY?]
    simp only [sectionLoop_cons, sectionBody, sectionCalls, blocksFrom_append,
      List.filterMap_append, signatureYs_taskLoop, hp, hh, ih, List.append_nil]

theorem signatureYs_headerCalls (b : Browser) (page size : Nat) :
    (blocksFrom page size (headerCalls b).1).filterMap Block.signatureY? = [] := by
  unfold headerCalls logoCalls titleCalls
  split <;> simp [blocksFrom, Block.signatureY?]

theorem signatureYs_signatureCalls (b : Browser) (y : ℚ) (page size : Nat) :
    (blocksFrom page size ((signatureCalls b y).1 ++ footerCalls)).filterMap
        Block.signatureY?
      = match b.document.signaturePad with
        | some _ => [y]
        | none => [] := by
  unfold signatureCalls footerCalls
  split <;> simp [blocksFrom, Block.signatureY?]

theorem signatureYs_generatePDF (b : Browser) (sections : List Section) :
    signatureYs (generatePDF b sections)
      = match b.document.signaturePad with
        | some _ => [(sectionLoop b 0 sections (headerCalls b).2).2]
        | none => [] := by
  rw [signatureYs, blocks, generatePDF_eq_header, blocksFrom_append, blocksFrom_append,
    List.filterMap_append, List.filterMap_append, signatureYs_headerCalls,
    signatureYs_sectionLoop, signatureYs_signatureCalls]
  simp

/-- C12. Cursor invariant: after each section the cursor is the top margin 20 when the
page-break check fired and the cursor plus gap otherwise, in both cases at most 260; so,
of the section headings of the report (one per section), every one but the first is drawn
at a cursor of at most 260, and when the checklist has at least one section the
`Signature:` label (drawn once, at the cursor left by the section loop, when the canvas
exists) is drawn at a cursor of at most 260. -/
theorem generatePDF_cursor_invariant (b : Browser) (sections : List Section) :
    (headingYs (generatePDF b sections)).length = sections.length
    ∧ (∀ c ∈ (headingYs (generatePDF b sections)).tail, c ≤ 260)
    ∧ signatureYs (generatePDF b sections)
        = (match b.document.signaturePad with
          | some _ => [(sectionLoop b 0 sections (headerCalls b).2).2]
          | none => [])
    ∧ (sections ≠ [] → ∀ c ∈ signatureYs (generatePDF b sections), c ≤ 260)
    ∧ ∀ (i : Nat) (sec : Section) (y : ℚ),
        (sectionBody b i sec y).2
            = (if (sectionCalls b i sec y).2 + 4 > 260 then 20
                else (sectionCalls b i sec y).2 + 4)
        ∧ (sectionBody b i sec y).2 ≤ 260 := by
  refine ⟨?_, ?_, signatureYs_generatePDF b sections, ?_, ?_⟩
  · rw [headingYs_generatePDF, length_headingYs_sectionLoop]
  · rw [headingYs_generatePDF]
    cases sections with
    | nil => simp [sectionLoop, blocksFrom]
    | cons sec secs =>
      rw [sectionLoop_cons, blocksFrom_append, List.filterMap_append, headingYs_sectionBody]
      intro c hc
      exact headingYs_sectionLoop_le b secs 1 _ _ _ (sectionBody_snd_le b 0 sec _) c
        (by simpa using hc)
  · intro hne c hc
    rw [signatureYs_generatePDF] at hc
    cases hs : b.document.signaturePad with
    | none => simp [hs] at hc
    | some d =>
      simp only [hs, List.mem_singleton] at hc
      rw [hc]
      exact sectionLoop_snd_le b sections 0 _ hne
  · intro i sec y
    refine ⟨?_, sectionBody_snd_le b i sec y⟩
    simp only [sectionBody, pageBreak_snd]

/-- C12, at a concrete page: one section whose first task has a photo drawn 240 high, with
a signature canvas; the label is drawn at a cursor of at most 260. -/
theorem generatePDF_cursor_invariant_witness :
    twoTaskSections ≠ []
    ∧ ∀ c ∈ signatureYs (generatePDF (tallPhotoBrowser (some "data:,sig")) twoTaskSections),
        c ≤ 260 :=
  ⟨by decide,
    (generatePDF_cursor_invariant (tallPhotoBrowser (some "data:,sig")) twoTaskSections).2.2.2.1
      (by decide)⟩

/-! ## Page breaks happen only between sections -/

theorem pageBreakCount_append (a c : List DocCall) :
    pageBreakCount (a ++ c) = pageBreakCount a + pageBreakCount c := by
  simp [pageBreakCount]

theorem pageBreakCount_taskLoop (b : Browser) (i : Nat) (tasks : List String) (j : Nat)
    (y : ℚ) : pageBreakCount (taskLoop b i j tasks y).1 = 0 := by
  induction tasks generalizing j y with
  | nil => simp [taskLoop, pageBreakCount]
  | cons t ts ih =>
    have ht : pageBreakCount (taskBody b i j t y).1 = 0 := by
      unfold taskBody commentCalls photoCalls statusCalls
      split <;> split <;> simp [pageBreakCount, List.count_cons]
    simp [taskLoop, pageBreakCount_append, ht, ih]

theorem pageBreakCount_sectionCalls (b : Browser) (i : Nat) (sec : Section) (y : ℚ) :
    pageBreakCount (sectionCalls b i sec y).1 = 0 := by
  have hh : pageBreakCount [DocCall.setFontSize 14, DocCall.text sec.name 20 y] = 0 := by
    simp [pageBreakCount, List.count_cons]
  simp only [sectionCalls, pageBreakCount_append, pageBreakCount_taskLoop, hh]

theorem pageBreakCount_pageBreak (y : ℚ) : pageBreakCount (pageBreak y).1 ≤ 1 := by
  unfold pageBreak
  split <;> simp [pageBreakCount]

theorem pageBreakCount_sectionLoop (b : Browser) (secs : List Section) (i : Nat) (y : ℚ) :
    pageBreakCount (sectionLoop b i secs y).1 ≤ secs.length := by
  induction secs generalizing i y with
  | nil => simp [sectionLoop, pageBreakCount]
  | cons sec secs ih =>
    have h1 := pageBreakCount_pageBreak (sectionCalls b i sec y).2
    have h2 := ih (i + 1) (sectionBody b i sec y).2
    have h3 := pageBreakCount_sectionCalls b i sec y
    rw [sectionLoop_cons]
    simp only [pageBreakCount_append, List.length_cons]
    have h4 : pageBreakCount (sectionBody b i sec y).1
        = pageBreakCount (sectionCalls b i sec y).1
          + pageBreakCount (pageBreak (sectionCalls b i sec y).2).1 := by
      simp only [sectionBody, pageBreakCount_append]
    omega

theorem pageBreakCount_headerCalls (b : Browser) : pageBreakCount (headerCalls b).1 = 0 := by
  unfold headerCalls logoCalls titleCalls
  split <;> simp [pageBreakCount, List.count_cons]

theorem pageBreakCount_signatureCalls (b : Browser) (y : ℚ) :
    pageBreakCount ((signatureCalls b y).1 ++ footerCalls) = 0 := by
  unfold signatureCalls footerCalls
  split <;> simp [pageBreakCount, List.count_cons]

theorem pageAfter_eq_add_count (cs : List DocCall) (page : Nat) :
    pageAfter page cs = page + pageBreakCount cs := by
  induction cs generalizing page with
  | nil => simp [pageAfter, pageBreakCount]
  | cons d cs ih =>
    cases d
    case addPage =>
      simp [pageAfter, pageBreakCount, List.count_cons, ih]
      omega
    all_goals simp [pageAfter, pageBreakCount, List.count_cons, ih]

theorem page_of_blocksFrom (cs : List DocCall) (page size : Nat)
    (h : pageBreakCount cs = 0) : ∀ blk ∈ blocksFrom page size cs, blk.page = page := by
  induction cs generalizing page size with
  | nil => simp [blocksFrom]
  | cons d cs ih =>
    have hc : pageBreakCount cs = 0 := by
      have := pageBreakCount_append [d] cs
      simp only [List.singleton_append] at this
      omega
    cases d with
    | addPage => simp [pageBreakCount] at h
    | setFontSize n => simpa [blocksFrom] using ih page n hc
    | save f => simpa [blocksFrom] using ih page size hc
    | text t x y =>
      intro blk hb
      simp only [blocksFrom, List.mem_cons] at hb
      rcases hb with hb | hb
      · rw [hb]
        rfl
      · exact ih page size hc blk hb
    | addImage data format x y w h1 =>
      intro blk hb
      simp only [blocksFrom, List.mem_cons] at hb
      rcases hb with hb | hb
      · rw [hb]
        rfl
      · exact ih page size hc blk hb

theorem generatePDF_section_split (b : Browser) (before : List Section) (sec : Section)
    (after : List Section) :
    generatePDF b (before ++ sec :: after)
      = callsBefore b before
        ++ (sectionCalls b before.length sec (cursorBefore b before)).1
        ++ ((pageBreak (sectionCalls b before.length sec (cursorBefore b before)).2).1
        ++ ((sectionLoop b (before.length + 1) after
              (sectionBody b before.length sec (cursorBefore b before)).2).1
        ++ ((signatureCalls b (sectionLoop b 0 (before ++ sec :: after)
              (headerCalls b).2).2).1
        ++ footerCalls))) := by
  rw [generatePDF_eq_header]
  have h := sectionLoop_append b before (sec :: after) 0 (headerCalls b).2
  rw [Nat.zero_add, sectionLoop_cons] at h
  have h1 := congrArg Prod.fst h
  simp only at h1
  rw [h1]
  simp only [callsBefore, cursorBefore, sectionBody, List.append_assoc]

/-- C11. The page-break check happens only at section boundaries. In the report of any
checklist `before ++ sec :: after`, the calls of section `sec` (heading and tasks) follow
the calls made before it in one piece; they contain no `addPage`, whatever the cursor they
start from, so all the blocks of a section are on one page; the report has at most as many
page breaks as sections (and one page more than page breaks). For the one-section
checklist `twoTaskSections` on a page whose first photo is drawn 240 high, the status line
of the second task is drawn on page 1 at cursor 290, beyond 260, before any page break. -/
theorem generatePDF_pageBreaks_between_sections (b : Browser) :
    (∀ (before : List Section) (sec : Section) (after : List Section),
      ∃ post, generatePDF b (before ++ sec :: after)
        = callsBefore b before
          ++ (sectionCalls b before.length sec (cursorBefore b before)).1 ++ post)
    ∧ (∀ (i : Nat) (sec : Section) (y : ℚ), pageBreakCount (sectionCalls b i sec y).1 = 0)
    ∧ (∀ (i : Nat) (sec : Section) (y : ℚ) (page size : Nat),
        ∀ blk ∈ blocksFrom page size (sectionCalls b i sec y).1, blk.page = page)
    ∧ (∀ sections : List Section, pageBreakCount (generatePDF b sections) ≤ sections.length)
    ∧ (∀ sections : List Section,
        pageCount (generatePDF b sections) = 1 + pageBreakCount (generatePDF b sections))
    ∧ Block.text 1 12 "- U: KO" 25 290
        ∈ blocks (generatePDF (tallPhotoBrowser none) twoTaskSections)
    ∧ (Block.text 1 12 "- U: KO" 25 290).page = 1
    ∧ (Block.text 1 12 "- U: KO" 25 290).y > 260 := by
  refine ⟨?_, pageBreakCount_sectionCalls b, ?_, ?_, ?_, by decide!, rfl, by decide!⟩
  · intro before sec after
    exact ⟨_, generatePDF_section_split b before sec after⟩
  · intro i sec y page size
    exact page_of_blocksFrom _ page size (pageBreakCount_sectionCalls b i sec y)
  · intro sections
    have h1 := pageBreakCount_headerCalls b
    have h2 := pageBreakCount_sectionLoop b sections 0 (headerCalls b).2
    have h3 := pageBreakCount_signatureCalls b (sectionLoop b 0 sections (headerCalls b).2).2
    rw [generatePDF_eq_header, pageBreakCount_append, pageBreakCount_append]
    omega
  · intro sections
    rw [pageCount, pageAfter_eq_add_count]

end NovaCheck
